import Mathlib

/-!
# findMTX: the cosmetic-modification report

A model of `findMTX.go`: name normalization, the console lines, and the two scanners (the
characters of an account, the stash tabs of the configured leagues), with the properties
of their output and of the order of their requests.
-/

/-! ## Strings -/

/-- A Go string is a sequence of bytes; `len` counts bytes. -/
abbrev GoString := List UInt8

/-- An ASCII literal, as bytes. -/
def lit (s : String) : GoString := s.toList.map (fun c => c.toNat.toUInt8)

/-- The library function `strings.Index`: the offset of the first occurrence of `sep`. -/
def Index (s sep : GoString) : Option Nat :=
  match s with
  | [] => if sep.isPrefixOf [] then some 0 else none
  | c :: t => if sep.isPrefixOf (c :: t) then some 0 else (Index t sep).map (· + 1)

/-- The loop of `strings.Split`: cut at the first occurrence of `sep`, go on after it, at
most `n` times; what is left is the last segment. -/
def genSplit (sep : GoString) : Nat → GoString → List GoString
  | 0, s => [s]
  | n + 1, s =>
    match Index s sep with
    | none => [s]
    | some m => s.take m :: genSplit sep n (s.drop (m + sep.length))

/-- The library function `strings.Split` for a non-empty separator. Every cut consumes at
least one byte, so `len(s)` cuts are never exceeded (`genSplit_fuel`). -/
def Split (s sep : GoString) : List GoString := genSplit sep s.length s

/-- Source lines 23-26. `none` stands for the panic of an index out of range. -/
def removeNameStuff (name : GoString) : Option GoString :=
  let splits := Split name (lit ">>")
  let i : Int := (splits.length : Int) - 1
  if 0 ≤ i then splits[i.toNat]? else none

/-- The offset of the last occurrence of `sep` in `s`, overlapping occurrences included
(what `strings.LastIndex` returns). -/
def LastIndex (s sep : GoString) : Option Nat :=
  match s with
  | [] => if sep.isPrefixOf [] then some 0 else none
  | c :: t =>
    match LastIndex t sep with
    | some i => some (i + 1)
    | none => if sep.isPrefixOf (c :: t) then some 0 else none

/-- The specification's wording of name normalization: the substring after the last
occurrence of ">>", and the string unchanged when there is none. -/
def afterLastDelimiter (s : GoString) : GoString :=
  match LastIndex s (lit ">>") with
  | none => s
  | some i => s.drop (i + (lit ">>").length)

/-! ## Formatting (the parts of `fmt` the program uses) -/

/-- A Go `int` is 64 bits wide: arithmetic results wrap into the signed range. -/
def wrapInt (x : Int) : Int := (x + 2 ^ 63) % 2 ^ 64 - 2 ^ 63

/-- The verb `%v` applied to an `int`: decimal digits, with a leading minus sign when negative. -/
def fmtInt (n : Int) : GoString :=
  let digits : GoString := (Nat.toDigits 10 n.natAbs).map (fun c => c.toNat.toUInt8)
  if n < 0 then 45 :: digits else digits

/-- The padding `fmt` applies to an ASCII operand: blanks up to the width, on the left,
or on the right when the minus flag is set. -/
def padString (wid : Nat) (minus : Bool) (s : GoString) : GoString :=
  let width := wid - s.length
  if minus then s ++ List.replicate width 32 else List.replicate width 32 ++ s

/-- The verb `%*v`: the width is an `int` argument. A width beyond a million in magnitude is
refused with a marker; a negative width sets the minus flag and pads to its absolute value. -/
def fmtStarV (w : Int) (s : GoString) : GoString :=
  if w > 1000000 ∨ w < -1000000 then lit "%!(BADWIDTH)" ++ s
  else if w < 0 then padString (-w).toNat true s
  else padString w.toNat false s

/-- The verb `%v` applied to a `[]string`: the elements separated by blanks, in brackets. -/
def fmtStrings (l : List GoString) : GoString :=
  lit "[" ++ List.intercalate (lit " ") l ++ lit "]"

/-! ## Data model (the types of the account client the program reads) -/

inductive Item where
  | mk (Name TypeLine : GoString) (X Y : Int) (CosmeticMods : List GoString)
      (SocketedItems : List Item)

def Item.Name : Item → GoString
  | .mk n _ _ _ _ _ => n

def Item.TypeLine : Item → GoString
  | .mk _ t _ _ _ _ => t

def Item.X : Item → Int
  | .mk _ _ x _ _ _ => x

def Item.Y : Item → Int
  | .mk _ _ _ y _ _ => y

def Item.CosmeticMods : Item → List GoString
  | .mk _ _ _ _ c _ => c

def Item.SocketedItems : Item → List Item
  | .mk _ _ _ _ _ s => s

structure Tab where
  N : GoString

structure Stash where
  NumTabs : Int
  Tabs : List Tab
  Items : List Item

structure Character where
  Name : GoString
  League : GoString

structure CharacterItems where
  Items : List Item

structure Config where
  AccountName : GoString
  Email : GoString
  Password : GoString
  StashLeagues : List GoString
  DelayTime : Int

/-- A Go `error`, by its message. -/
abbrev Error := GoString

/-- The account client `*poe.Poe`: each fetch answers from the session state `σ` and
leaves a new one. -/
structure Poe (σ : Type) where
  GetCharacters : σ → Except Error (List Character) × σ
  GetCharacterItems : σ → GoString → Except Error CharacterItems × σ
  GetStash : σ → GoString → Int → Int → Except Error Stash × σ

/-! ## Presentation helpers: the text each one writes -/

/-- The local `s` of `printCharName`. -/
def printCharName_s (name league : GoString) : GoString :=
  name ++ lit " in League " ++ league

def printCharName (name league : GoString) : GoString :=
  let s := printCharName_s name league
  lit "\r" ++ s ++ fmtStarV (60 - (s.length : Int)) (lit " ") ++ lit "\n"

/-- The local `s` of the progress line of `poeFindCharacterMTX`. -/
def checking_s (index : Int) (total : Int) (name league : GoString) : GoString :=
  lit "Checking " ++ padString 2 false (fmtInt (wrapInt (index + 1))) ++ lit "/" ++
    padString 2 false (fmtInt total) ++ lit " (" ++ name ++ lit ") in League (" ++ league ++ lit ")"

/-- The progress line of `poeFindCharacterMTX` (source line 78). -/
def printChecking (index : Int) (total : Int) (name league : GoString) : GoString :=
  let s := checking_s index total name league
  lit "\r" ++ s ++ fmtStarV (60 - (s.length : Int)) (lit " ")

/-- The local `s` of `printStashCount`. -/
def printStashCount_s (league stashtab : GoString) (index max : Int) : GoString :=
  league ++ lit " " ++ padString 2 false (fmtInt (wrapInt (index + 1))) ++ lit "/" ++
    padString 2 false (fmtInt max) ++ lit " - " ++ stashtab

def printStashCount (league stashtab : GoString) (index max : Int) : GoString :=
  let s := printStashCount_s league stashtab index max
  lit "\r" ++ s ++ fmtStarV (60 - (s.length : Int)) (lit " ")

/-- The local `s` of `printTab`. -/
def printTab_s (league stash : GoString) : GoString :=
  league ++ lit " - " ++ stash

def printTab (league stash : GoString) : GoString :=
  let s := printTab_s league stash
  lit "\r" ++ s ++ fmtStarV (60 - (s.length : Int)) (lit " ") ++ lit "\n"

/-- The padding the four status lines end with, for a status of `n` bytes, as the
specification's `width - len(status)` blanks extended to every length: `60 - n` blanks
below 60 bytes; from 60 bytes on the one-blank operand is still written, with `n - 60`
blanks in all once that exceeds one; beyond a width of a million in magnitude the marker
of a refused width and the blank. -/
def expectedPad (n : Nat) : GoString :=
  if n < 60 then List.replicate (60 - n) 32
  else if n ≤ 1000060 then List.replicate (max 1 (n - 60)) 32
  else lit "%!(BADWIDTH)" ++ lit " "

/-- The number of characters of a well-formed UTF-8 string (`utf8.RuneCountInString`): the
bytes that do not continue a character. -/
def runeCount (s : GoString) : Nat := s.countP (fun b => decide (b < 128) || decide (192 ≤ b))

/-- The position as both report lines print it: `(X+1|Y+1)`. -/
def fmtPosition (item : Item) : GoString :=
  lit "(" ++ fmtInt (wrapInt (item.X + 1)) ++ lit "|" ++ fmtInt (wrapInt (item.Y + 1)) ++ lit ")"

def printItem (item : Item) : Option GoString := do
  let name ← removeNameStuff item.Name
  pure (lit "\t" ++ name ++ lit " (" ++ item.TypeLine ++ lit ") " ++ fmtPosition item ++
    lit " -> " ++ fmtStrings item.CosmeticMods ++ lit "\n")

def printSocketedItem (item parent : Item) : Option GoString := do
  let parentName ← removeNameStuff parent.Name
  pure (lit "\t" ++ item.TypeLine ++ lit " " ++ fmtPosition item ++ lit " -> " ++
    fmtStrings item.CosmeticMods ++ lit " socketed in " ++ parentName ++ lit " (" ++
    parent.TypeLine ++ lit ") " ++ fmtPosition parent ++ lit "\n")

/-! ## The scanners: what they call, in order -/

/-- One observable step of a scan: a fetch with its answer, a pause, or a print statement
with its arguments. -/
inductive Event where
  | GetCharacters (r : Except Error (List Character))
  | GetCharacterItems (name : GoString) (r : Except Error CharacterItems)
  | GetStash (league : GoString) (index tabs : Int) (r : Except Error Stash)
  | displayStartupError (message : Error)
  | Sleep (d : Int)
  | printCharName (name league : GoString)
  | printBlank
  | printChecking (index total : Int) (name league : GoString)
  | printCharItem (item : Item)
  | printCharSocketedItem (socketedItem item : Item)
  | printEnd
  | printStashCount (league stashtab : GoString) (index max : Int)
  | printTab (league stash : GoString)
  | printItem (item : Item)
  | printSocketedItem (item parent : Item)

/-- How a scanner stopped: it ran to its end, it returned early after showing an error, or
an index was out of range. -/
inductive Outcome where
  | completed
  | returned
  | panicked
  deriving DecidableEq

structure Run (σ : Type) where
  trace : List Event
  outcome : Outcome
  state : σ

/-- The pause between stash fetches: `1000 * time.Millisecond * conf.DelayTime`, in nanoseconds. -/
def delay (conf : Config) : Int := wrapInt (1000 * 1000000 * conf.DelayTime)

/-- Source lines 93-101: the socketed items of one item of a character. -/
def characterSocketedLoop (character : Character) (item : Item) :
    List Item → Bool → Bool × List Event
  | [], charNamePrinted => (charNamePrinted, [])
  | socketedItem :: rest, charNamePrinted =>
    if 0 < socketedItem.CosmeticMods.length then
      let header := if !charNamePrinted then
        [Event.printCharName character.Name character.League] else []
      let r := characterSocketedLoop character item rest true
      (r.1, header ++ Event.printCharSocketedItem socketedItem item :: r.2)
    else characterSocketedLoop character item rest charNamePrinted

/-- Source lines 85-102: the items of one character. -/
def characterItemsLoop (character : Character) : List Item → Bool → Bool × List Event
  | [], charNamePrinted => (charNamePrinted, [])
  | item :: rest, charNamePrinted =>
    let own : Bool × List Event :=
      if 0 < item.CosmeticMods.length then
        (true, (if !charNamePrinted then
          [Event.printCharName character.Name character.League] else []) ++
          [Event.printCharItem item])
      else (charNamePrinted, [])
    let sock := characterSocketedLoop character item item.SocketedItems own.1
    let r := characterItemsLoop character rest sock.1
    (r.1, own.2 ++ sock.2 ++ r.2)

/-- Source lines 74-103: the loop over the characters, `index` counting from 0. -/
def charactersLoop {σ : Type} (p : Poe σ) (total : Int) :
    List Character → Int → σ → Run σ
  | [], _, s => ⟨[], .completed, s⟩
  | character :: rest, index, s =>
    match p.GetCharacterItems s character.Name with
    | (.error err, s1) =>
      ⟨[.printBlank, .printChecking index total character.Name character.League,
        .GetCharacterItems character.Name (.error err), .displayStartupError err],
        .returned, s1⟩
    | (.ok charItems, s1) =>
      let body := characterItemsLoop character charItems.Items false
      let r := charactersLoop p total rest (index + 1) s1
      ⟨[.printBlank, .printChecking index total character.Name character.League,
        .GetCharacterItems character.Name (.ok charItems)] ++ body.2 ++ r.trace,
        r.outcome, r.state⟩

def poeFindCharacterMTX {σ : Type} (p : Poe σ) (_conf : Config) (s : σ) : Run σ :=
  match p.GetCharacters s with
  | (.error err, s1) =>
    ⟨[.GetCharacters (.error err), .displayStartupError err], .returned, s1⟩
  | (.ok characters, s1) =>
    let r := charactersLoop p characters.length characters 0 s1
    match r.outcome with
    | .completed =>
      ⟨.GetCharacters (.ok characters) :: r.trace ++ [.printEnd], .completed, r.state⟩
    | o => ⟨.GetCharacters (.ok characters) :: r.trace, o, r.state⟩

/-- Source lines 143-150: the items of tab 0. -/
def firstTabLoop (league stash : GoString) : List Item → Bool → Bool × List Event
  | [], tabNamePrinted => (tabNamePrinted, [])
  | item :: rest, tabNamePrinted =>
    if 0 < item.CosmeticMods.length then
      let header := if !tabNamePrinted then [Event.printTab league stash] else []
      let r := firstTabLoop league stash rest true
      (r.1, header ++ r.2)
    else firstTabLoop league stash rest tabNamePrinted

/-- Source lines 168-176: the socketed items of one item of a stash tab. -/
def stashSocketedLoop (league stash : GoString) (item : Item) :
    List Item → Bool → Bool × List Event
  | [], tabNamePrinted => (tabNamePrinted, [])
  | socketedItem :: rest, tabNamePrinted =>
    if 0 < socketedItem.CosmeticMods.length then
      let header := if !tabNamePrinted then [Event.printTab league stash] else []
      let r := stashSocketedLoop league stash item rest true
      (r.1, header ++ Event.printSocketedItem socketedItem item :: r.2)
    else stashSocketedLoop league stash item rest tabNamePrinted

/-- Source lines 160-177: the items of one stash tab. -/
def stashItemsLoop (league stash : GoString) : List Item → Bool → Bool × List Event
  | [], tabNamePrinted => (tabNamePrinted, [])
  | item :: rest, tabNamePrinted =>
    let own : Bool × List Event :=
      if 0 < item.CosmeticMods.length then
        (true, (if !tabNamePrinted then [Event.printTab league stash] else []) ++
          [Event.printItem item])
      else (tabNamePrinted, [])
    let sock := stashSocketedLoop league stash item item.SocketedItems own.1
    let r := stashItemsLoop league stash rest sock.1
    (r.1, own.2 ++ sock.2 ++ r.2)

/-- Source lines 152-180: `for i := 1; i < firstTab.NumTabs; i++`, with `remaining` the
number of iterations still to run, `(firstTab.NumTabs - i)` when positive. -/
def tabsLoop {σ : Type} (p : Poe σ) (conf : Config) (league : GoString) (firstTab : Stash) :
    Nat → Int → Bool → σ → Run σ
  | 0, _, _, s => ⟨[], .completed, s⟩
  | remaining + 1, i, tabNamePrinted, s =>
    match p.GetStash s league i 0 with
    | (.error err, s1) =>
      ⟨[.GetStash league i 0 (.error err), .displayStartupError err], .returned, s1⟩
    | (.ok currentTab, s1) =>
      match firstTab.Tabs[i.toNat]? with
      | none => ⟨[.GetStash league i 0 (.ok currentTab)], .panicked, s1⟩
      | some tab =>
        let body := stashItemsLoop league tab.N currentTab.Items tabNamePrinted
        let r := tabsLoop p conf league firstTab remaining (i + 1) body.1 s1
        ⟨[.GetStash league i 0 (.ok currentTab),
          .printStashCount league tab.N i firstTab.NumTabs] ++ body.2 ++
          .Sleep (delay conf) :: r.trace, r.outcome, r.state⟩

/-- Source lines 129-180: the body of the loop over the leagues. -/
def stashLeague {σ : Type} (p : Poe σ) (conf : Config) (league : GoString) (s : σ) : Run σ :=
  match p.GetStash s league 0 1 with
  | (.error err, s1) =>
    ⟨[.GetStash league 0 1 (.error err), .displayStartupError err], .returned, s1⟩
  | (.ok firstTab, s1) =>
    if firstTab.NumTabs = 0 then ⟨[.GetStash league 0 1 (.ok firstTab)], .completed, s1⟩
    else
      match firstTab.Tabs[0]? with
      | none => ⟨[.GetStash league 0 1 (.ok firstTab)], .panicked, s1⟩
      | some tab =>
        let body := firstTabLoop league tab.N firstTab.Items false
        let r := tabsLoop p conf league firstTab (firstTab.NumTabs - 1).toNat 1 body.1 s1
        ⟨[.GetStash league 0 1 (.ok firstTab),
          .printStashCount league tab.N 0 firstTab.NumTabs, .Sleep (delay conf)] ++
          body.2 ++ r.trace, r.outcome, r.state⟩

/-- Source lines 128-181: the loop over the configured leagues. -/
def leaguesLoop {σ : Type} (p : Poe σ) (conf : Config) : List GoString → σ → Run σ
  | [], s => ⟨[], .completed, s⟩
  | league :: rest, s =>
    let r := stashLeague p conf league s
    match r.outcome with
    | .completed =>
      let r2 := leaguesLoop p conf rest r.state
      ⟨r.trace ++ r2.trace, r2.outcome, r2.state⟩
    | _ => r

def poeFindStashMTX {σ : Type} (p : Poe σ) (conf : Config) (s : σ) : Run σ :=
  leaguesLoop p conf conf.StashLeagues s

/-- The report line of `poeFindCharacterMTX` for an item (source line 91). -/
def printCharItem (item : Item) : Option GoString := do
  let name ← removeNameStuff item.Name
  pure (lit "\t " ++ name ++ lit " (" ++ item.TypeLine ++ lit ")-> " ++
    fmtStrings item.CosmeticMods ++ lit "\n")

/-- The report line of `poeFindCharacterMTX` for a socketed item (source line 99). -/
def printCharSocketedItem (socketedItem item : Item) : Option GoString := do
  let name ← removeNameStuff socketedItem.Name
  let parentName ← removeNameStuff item.Name
  pure (lit "\t " ++ name ++ lit " (" ++ socketedItem.TypeLine ++ lit ")-> " ++
    fmtStrings socketedItem.CosmeticMods ++ lit " socketed in (" ++ parentName ++ lit " - " ++
    item.TypeLine ++ lit ")\n")

/-- The text an event writes to the console; `none` stands for a run-time panic while the
arguments are computed. Fetches and pauses write nothing. -/
def eventOutput : Event → Option GoString
  | .GetCharacters _ => some []
  | .GetCharacterItems _ _ => some []
  | .GetStash _ _ _ _ => some []
  | .displayStartupError message =>
    some (message ++ lit "\n" ++ lit "Press enter to close this window.\n")
  | .Sleep _ => some []
  | .printCharName name league => some (printCharName name league)
  | .printBlank => some (lit "\r" ++ padString 60 false (lit " "))
  | .printChecking index total name league => some (printChecking index total name league)
  | .printCharItem item => printCharItem item
  | .printCharSocketedItem socketedItem item => printCharSocketedItem socketedItem item
  | .printEnd => some (lit "\r" ++ fmtStarV 60 (lit " ") ++ lit "\n")
  | .printStashCount league stashtab index max =>
    some (printStashCount league stashtab index max)
  | .printTab league stash => some (printTab league stash)
  | .printItem item => printItem item
  | .printSocketedItem item parent => printSocketedItem item parent

/-! ## Vocabulary for stating what a scan printed -/

/-- The test both scanners apply: `len(item.CosmeticMods) > 0`. -/
def hasMods (item : Item) : Bool := decide (0 < item.CosmeticMods.length)

/-- An item matches when it or one of the items socketed in it carries a cosmetic modification. -/
def matchesItem (item : Item) : Bool := hasMods item || item.SocketedItems.any hasMods

/-- The report lines of a character, in traversal order: each matching item, then the matching
items socketed in it. -/
def characterReportLines (items : List Item) : List Event :=
  items.flatMap (fun item =>
    (if hasMods item then [Event.printCharItem item] else []) ++
      (item.SocketedItems.filter hasMods).map (fun socketedItem =>
        Event.printCharSocketedItem socketedItem item))

/-- The report lines of a stash tab, in traversal order. -/
def stashReportLines (items : List Item) : List Event :=
  items.flatMap (fun item =>
    (if hasMods item then [Event.printItem item] else []) ++
      (item.SocketedItems.filter hasMods).map (fun socketedItem =>
        Event.printSocketedItem socketedItem item))

def Event.isCharHeader : Event → Bool
  | .printCharName _ _ => true
  | _ => false

def Event.isTabHeader : Event → Bool
  | .printTab _ _ => true
  | _ => false

def Event.isReport : Event → Bool
  | .printItem _ => true
  | .printSocketedItem _ _ => true
  | .printCharItem _ => true
  | .printCharSocketedItem _ _ => true
  | _ => false

/-- A fetch that failed, or the display of an error. -/
def Event.isFailure : Event → Bool
  | .GetCharacters (.error _) => true
  | .GetCharacterItems _ (.error _) => true
  | .GetStash _ _ _ (.error _) => true
  | .displayStartupError _ => true
  | _ => false

/-- The requests and pauses of a stash scan, without the answers. -/
inductive Step where
  | fetch (league : GoString) (index tabs : Int)
  | pause (d : Int)

def Event.step : Event → Option Step
  | .GetStash league index tabs _ => some (.fetch league index tabs)
  | .Sleep d => some (.pause d)
  | _ => none

def steps (trace : List Event) : List Step := trace.filterMap Event.step

/-- The leagues whose tab list was requested (the fetches with the metadata flag set). -/
def firstPages (trace : List Event) : List GoString :=
  trace.filterMap (fun e =>
    match e with
    | .GetStash league _ tabs _ => if tabs = 1 then some league else none
    | _ => none)

/-- Every stash report line is for an item of the tab fetched last, and that tab was fetched
inside the loop over the tabs (index 1 or more). `current` is the index and the items of the
tab fetched last. -/
def reportsFromLoopTabs : Option (Int × List Item) → List Event → Prop
  | _, [] => True
  | current, e :: rest =>
    match e with
    | .GetStash _ index _ (.ok tab) => reportsFromLoopTabs (some (index, tab.Items)) rest
    | .printItem item =>
      (∃ index items, current = some (index, items) ∧ 1 ≤ index ∧ item ∈ items) ∧
        reportsFromLoopTabs current rest
    | .printSocketedItem item parent =>
      (∃ index items, current = some (index, items) ∧ 1 ≤ index ∧ parent ∈ items ∧
        item ∈ parent.SocketedItems) ∧ reportsFromLoopTabs current rest
    | _ => reportsFromLoopTabs current rest

/-- A successful fetch of a character's items. -/
def Event.isItemsFetch : Event → Bool
  | .GetCharacterItems _ (.ok _) => true
  | _ => false

/-- A stash fetch with the metadata flag set. -/
def Event.isFirstPage : Event → Bool
  | .GetStash _ _ tabs _ => decide (tabs = 1)
  | _ => false

/-- The name the first fetch lists for tab `i` (empty when the tab is not listed). -/
def tabName (firstTab : Stash) (i : Int) : GoString :=
  match firstTab.Tabs[i.toNat]? with
  | some tab => tab.N
  | none => []

/-- The trace of the tabs `i`, `i + 1`, ... of a league when the fetches answer `tabs`, one
after the other: per tab the fetch with the flag clear, the progress line, the header if
none was printed in this league before and the tab matches, the tab's report lines, and
then the pause of `1000 * time.Millisecond * DelayTime`. -/
def expectedTabs (conf : Config) (league : GoString) (firstTab : Stash) :
    Int → Bool → List Stash → List Event
  | _, _, [] => []
  | i, printed, tab :: rest =>
    [Event.GetStash league i 0 (.ok tab),
      Event.printStashCount league (tabName firstTab i) i firstTab.NumTabs] ++
    (if !printed && tab.Items.any matchesItem then
      [Event.printTab league (tabName firstTab i)] else []) ++
    stashReportLines tab.Items ++
    Event.Sleep (wrapInt (1000 * 1000000 * conf.DelayTime)) ::
      expectedTabs conf league firstTab (i + 1) (printed || tab.Items.any matchesItem) rest

/-- The trace of one league when its first fetch answers `firstTab` and the fetches of
tabs 1, 2, ... answer `tabs`. -/
def expectedLeague (conf : Config) (league : GoString) (firstTab : Stash)
    (tabs : List Stash) : List Event :=
  if firstTab.NumTabs = 0 then [Event.GetStash league 0 1 (.ok firstTab)]
  else
    [Event.GetStash league 0 1 (.ok firstTab),
      Event.printStashCount league (tabName firstTab 0) 0 firstTab.NumTabs,
      Event.Sleep (wrapInt (1000 * 1000000 * conf.DelayTime))] ++
    (if firstTab.Items.any hasMods then [Event.printTab league (tabName firstTab 0)]
      else []) ++
    expectedTabs conf league firstTab 1 (firstTab.Items.any hasMods) tabs

/-- The requests and pauses of one league whose first fetch counts `n` tabs: tab 0 with the
flag set and, unless `n` is zero, a pause, then tabs 1 .. n-1 in ascending order with the
flag clear, each followed by a pause of `1000 * time.Millisecond * DelayTime`. -/
def leagueSteps (conf : Config) (league : GoString) (n : Int) : List Step :=
  Step.fetch league 0 1 ::
    (if n = 0 then []
     else Step.pause (wrapInt (1000 * 1000000 * conf.DelayTime)) ::
      (List.range (n - 1).toNat).flatMap (fun k =>
        [Step.fetch league (1 + (k : Int)) 0,
          Step.pause (wrapInt (1000 * 1000000 * conf.DelayTime))]))

/-- The shape of a stash scan with respect to failures: either it returned early and its trace
ends with the one failed fetch and the display of its error, or nothing in it failed. -/
def Settled (trace : List Event) (outcome : Outcome) : Prop :=
  (outcome = .returned ∧ ∃ pre league index tabs err,
      trace = pre ++ [Event.GetStash league index tabs (.error err),
        Event.displayStartupError err] ∧
      ∀ e ∈ pre, e.isFailure = false) ∨
    (outcome ≠ .returned ∧ ∀ e ∈ trace, e.isFailure = false)

/-! ## Sample accounts -/

/-- An item with one cosmetic modification and nothing socketed. -/
def skinned (name : String) : Item := .mk (lit name) (lit "Bow") 0 0 [lit "skin"] []

/-- An item without any cosmetic modification. -/
def plain (name : String) : Item := .mk (lit name) (lit "Bow") 0 0 [] []

/-- A skinned item with a skinned gem socketed in it. -/
def skinnedWithGem : Item :=
  .mk (lit "Doom>>Wrath") (lit "Bow") 2 5 [lit "skin"] [skinned "Gem"]

def sampleTabs : List Tab := [⟨lit "T0"⟩, ⟨lit "T1"⟩, ⟨lit "T2"⟩]

/-- An account with one character, and three stash tabs per league of which tabs 1 and 2
hold one skinned item each. -/
def sampleAccount : Poe Unit where
  GetCharacters := fun s => (.ok [⟨lit "Ann", lit "Standard"⟩], s)
  GetCharacterItems := fun s _ => (.ok ⟨[skinnedWithGem]⟩, s)
  GetStash := fun s _ index _ =>
    if index = 0 then (.ok ⟨3, sampleTabs, []⟩, s)
    else if index = 1 then (.ok ⟨0, [], [skinned "A"]⟩, s)
    else (.ok ⟨0, [], [skinned "B"]⟩, s)

/-- An account whose stash has three tabs per league, only tab 2 holding a skinned item. -/
def lastTabAccount : Poe Unit where
  GetCharacters := fun s => (.ok [], s)
  GetCharacterItems := fun s _ => (.ok ⟨[]⟩, s)
  GetStash := fun s _ index _ =>
    if index = 0 then (.ok ⟨3, sampleTabs, [plain "P"]⟩, s)
    else if index = 1 then (.ok ⟨0, [], [plain "Q"]⟩, s)
    else (.ok ⟨0, [], [skinned "B"]⟩, s)

/-- An account whose stash fetch fails at tab 1. -/
def failingAccount : Poe Unit where
  GetCharacters := fun s => (.ok [], s)
  GetCharacterItems := fun s _ => (.ok ⟨[]⟩, s)
  GetStash := fun s _ index _ =>
    if index = 1 then (.error (lit "timeout"), s)
    else (.ok ⟨3, sampleTabs, []⟩, s)

/-- An account whose stash is empty in every league. -/
def emptyAccount : Poe Unit where
  GetCharacters := fun s => (.ok [], s)
  GetCharacterItems := fun s _ => (.ok ⟨[]⟩, s)
  GetStash := fun s _ _ _ => (.ok ⟨0, [], []⟩, s)

/-- An account whose tab 0 holds a skinned item. -/
def firstTabAccount : Poe Unit where
  GetCharacters := fun s => (.ok [], s)
  GetCharacterItems := fun s _ => (.ok ⟨[]⟩, s)
  GetStash := fun s _ index _ =>
    if index = 0 then (.ok ⟨2, [⟨lit "T0"⟩, ⟨lit "T1"⟩], [skinned "Z"]⟩, s)
    else (.ok ⟨0, [], [skinned "A"]⟩, s)

def sampleConfig (leagues : List GoString) : Config := ⟨lit "acc", lit "mail", lit "pw", leagues, 1⟩

/-- An account whose first fetch counts two tabs, lists none, and holds a skinned item. -/
def unlistedAccount : Poe Unit where
  GetCharacters := fun s => (.ok [], s)
  GetCharacterItems := fun s _ => (.ok ⟨[]⟩, s)
  GetStash := fun s _ _ _ => (.ok ⟨2, [], [skinned "Z"]⟩, s)

/-- An account whose first fetch counts three tabs and lists only the first. -/
def shortListAccount : Poe Unit where
  GetCharacters := fun s => (.ok [], s)
  GetCharacterItems := fun s _ => (.ok ⟨[]⟩, s)
  GetStash := fun s _ index _ =>
    if index = 0 then (.ok ⟨3, [⟨lit "T0"⟩], []⟩, s)
    else (.ok ⟨0, [], [skinned "A"]⟩, s)

/-- A configuration with a pause factor of 3. -/
def slowConfig (leagues : List GoString) : Config := ⟨lit "acc", lit "mail", lit "pw", leagues, 3⟩

/-- The trace of one league of `lastTabAccount` under `slowConfig`: pauses of 3 seconds. -/
def lastTabTrace (league : GoString) : List Event :=
  [.GetStash league 0 1 (.ok ⟨3, sampleTabs, [plain "P"]⟩),
    .printStashCount league (lit "T0") 0 3, .Sleep 3000000000,
    .GetStash league 1 0 (.ok ⟨0, [], [plain "Q"]⟩),
    .printStashCount league (lit "T1") 1 3, .Sleep 3000000000,
    .GetStash league 2 0 (.ok ⟨0, [], [skinned "B"]⟩),
    .printStashCount league (lit "T2") 2 3,
    .printTab league (lit "T2"), .printItem (skinned "B"), .Sleep 3000000000]
/-! ## Name normalization -/

theorem Index_none_iff (sep s : GoString) : Index s sep = none ↔ ¬ sep <:+: s := by
  induction s with
  | nil =>
    simp only [Index, List.isPrefixOf_iff_prefix]
    by_cases h : sep <+: []
    · simp [h, h.isInfix]
    · simp only [h, if_false, true_iff]
      intro hi
      exact h (List.infix_nil.mp hi ▸ List.prefix_refl _)
  | cons c t ih =>
    simp only [Index, List.isPrefixOf_iff_prefix]
    by_cases h : sep <+: c :: t
    · simp [h, h.isInfix]
    · simp [h, ih, List.infix_cons_iff]

theorem Index_some {sep s : GoString} {m : Nat} (h : Index s sep = some m) :
    s = s.take m ++ sep ++ s.drop (m + sep.length) := by
  induction s generalizing m with
  | nil =>
    simp only [Index, List.isPrefixOf_iff_prefix] at h
    by_cases hp : sep <+: []
    · have : sep = [] := List.prefix_nil.mp hp
      simp [this]
    · simp [hp] at h
  | cons c t ih =>
    simp only [Index, List.isPrefixOf_iff_prefix] at h
    by_cases hp : sep <+: c :: t
    · simp only [hp, if_true, Option.some.injEq] at h
      subst h
      obtain ⟨r, hr⟩ := hp
      simp [← hr]
    · simp only [hp, if_false, Option.map_eq_some'] at h
      obtain ⟨k, hk, rfl⟩ := h
      have := ih hk
      simp only [List.take_succ_cons, List.cons_append, Nat.add_right_comm k 1, List.drop_succ_cons]
      rw [← this]

theorem Index_some_le {sep s : GoString} {m : Nat} (h : Index s sep = some m) :
    m + sep.length ≤ s.length := by
  induction s generalizing m with
  | nil =>
    simp only [Index, List.isPrefixOf_iff_prefix] at h
    by_cases hp : sep <+: []
    · have : sep = [] := List.prefix_nil.mp hp
      simp only [hp, if_true, Option.some.injEq] at h
      simp [this, ← h]
    · simp [hp] at h
  | cons c t ih =>
    simp only [Index, List.isPrefixOf_iff_prefix] at h
    by_cases hp : sep <+: c :: t
    · simp only [hp, if_true, Option.some.injEq] at h
      subst h
      simpa using hp.length_le
    · simp only [hp, if_false, Option.map_eq_some'] at h
      obtain ⟨k, hk, rfl⟩ := h
      have := ih hk
      simp only [List.length_cons]
      omega

theorem genSplit_ne_nil (sep : GoString) (n : Nat) (s : GoString) : genSplit sep n s ≠ [] := by
  cases n with
  | zero => simp [genSplit]
  | succ n =>
    simp only [genSplit]
    split <;> simp

theorem genSplit_getLast (sep : GoString) (hsep : sep ≠ []) (n : Nat) (s : GoString)
    (hn : s.length ≤ n) :
    ∃ r, (genSplit sep n s).getLast? = some r ∧ ¬ sep <:+: r ∧
      ((r = s) ∨ ∃ p, s = p ++ sep ++ r) := by
  induction n generalizing s with
  | zero =>
    have hs : s = [] := List.length_eq_zero.mp (Nat.le_zero.mp hn)
    subst hs
    refine ⟨[], by simp [genSplit], ?_, Or.inl rfl⟩
    intro hi
    exact hsep (List.infix_nil.mp hi)
  | succ n ih =>
    simp only [genSplit]
    cases hI : Index s sep with
    | none =>
      exact ⟨s, by simp, (Index_none_iff sep s).mp hI, Or.inl rfl⟩
    | some m =>
      have hle := Index_some_le hI
      have hpos : 0 < sep.length := List.length_pos.mpr hsep
      have hlen : (s.drop (m + sep.length)).length ≤ n := by
        simp only [List.length_drop]; omega
      obtain ⟨r, hr, hno, hcut⟩ := ih (s.drop (m + sep.length)) hlen
      refine ⟨r, ?_, hno, Or.inr ?_⟩
      · simp only
        rw [List.getLast?_cons, hr]
        rfl
      · have hs := Index_some hI
        rcases hcut with h | ⟨p, hp⟩
        · exact ⟨s.take m, by rw [h]; exact hs⟩
        · refine ⟨s.take m ++ sep ++ p, ?_⟩
          rw [hp] at hs
          simpa [List.append_assoc] using hs

theorem LastIndex_none_iff (sep s : GoString) : LastIndex s sep = none ↔ ¬ sep <:+: s := by
  induction s with
  | nil =>
    simp only [LastIndex, List.isPrefixOf_iff_prefix]
    by_cases h : sep <+: []
    · simp [h, h.isInfix]
    · simp only [h, if_false, true_iff]
      intro hi
      exact h (List.infix_nil.mp hi ▸ List.prefix_refl _)
  | cons c t ih =>
    simp only [LastIndex, List.isPrefixOf_iff_prefix]
    cases hL : LastIndex t sep with
    | some i =>
      have : sep <:+: t := by
        by_contra hc
        rw [ih.mpr hc] at hL
        cases hL
      simp [List.infix_cons_iff, this]
    | none =>
      have := ih.mp hL
      by_cases h : sep <+: c :: t <;> simp [h, this, List.infix_cons_iff]

theorem LastIndex_append (sep x y : GoString) (i : Nat) (h : LastIndex y sep = some i) :
    LastIndex (x ++ y) sep = some (x.length + i) := by
  induction x with
  | nil => simpa using h
  | cons c t ih =>
    rw [List.cons_append, LastIndex, ih]
    simp only [List.length_cons, Option.some.injEq]
    omega

theorem afterLastDelimiter_of_absent (s : GoString) (h : ¬ lit ">>" <:+: s) :
    afterLastDelimiter s = s := by
  simp [afterLastDelimiter, (LastIndex_none_iff _ _).mpr h]

theorem afterLastDelimiter_cut (a r : GoString) (hno : ¬ lit ">>>" <:+: a ++ lit ">>" ++ r) :
    afterLastDelimiter (a ++ lit ">>" ++ r) = afterLastDelimiter r := by
  cases hL : LastIndex r (lit ">>") with
  | some i =>
    have h1 := LastIndex_append (lit ">>") (a ++ lit ">>") r i hL
    simp only [afterLastDelimiter, h1, hL]
    rw [Nat.add_assoc, ← List.drop_drop, List.drop_left]
  | none =>
    have hr : ¬ lit ">>" <:+: r := (LastIndex_none_iff _ _).mp hL
    have h62 : LastIndex ((62 : UInt8) :: r) (lit ">>") = none := by
      rw [LastIndex_none_iff, List.infix_cons_iff]
      rintro (hp | hi)
      · obtain ⟨t, ht⟩ := hp
        apply hno
        refine ⟨a, t, ?_⟩
        have : r = 62 :: t := by
          have h2 : lit ">>" = [62, 62] := by decide
          rw [h2] at ht
          simpa using ht.symm
        rw [this]
        have h3 : lit ">>>" = [62, 62, 62] := by decide
        have h2 : lit ">>" = [62, 62] := by decide
        simp [h3, h2]
      · exact hr hi
    have h0 : LastIndex (lit ">>" ++ r) (lit ">>") = some 0 := by
      have h2 : lit ">>" = [62, 62] := by decide
      rw [h2] at h62 ⊢
      rw [List.cons_append, List.cons_append, List.nil_append, LastIndex, h62]
      simp
    have h1 := LastIndex_append (lit ">>") a (lit ">>" ++ r) 0 h0
    rw [← List.append_assoc] at h1
    simp only [afterLastDelimiter, h1, hL, Nat.add_zero]
    rw [List.append_assoc, List.drop_append, List.drop_left]

theorem genSplit_getLast_afterLast (n : Nat) (s : GoString) (hn : s.length ≤ n)
    (hno : ¬ lit ">>>" <:+: s) :
    (genSplit (lit ">>") n s).getLast? = some (afterLastDelimiter s) := by
  induction n generalizing s with
  | zero =>
    have hs : s = [] := List.length_eq_zero.mp (Nat.le_zero.mp hn)
    subst hs
    rfl
  | succ n ih =>
    simp only [genSplit]
    cases hI : Index s (lit ">>") with
    | none =>
      simp [afterLastDelimiter_of_absent s ((Index_none_iff _ _).mp hI)]
    | some m =>
      have hle := Index_some_le hI
      have hs := Index_some hI
      have h2 : (lit ">>").length = 2 := by decide
      have hlen : (s.drop (m + (lit ">>").length)).length ≤ n := by
        simp only [List.length_drop]; omega
      have hno' : ¬ lit ">>>" <:+: s.drop (m + (lit ">>").length) :=
        fun h => hno (h.trans (List.drop_suffix _ _).isInfix)
      have := ih _ hlen hno'
      simp only
      rw [List.getLast?_cons, this]
      rw [hs] at hno
      have hc := afterLastDelimiter_cut _ _ hno
      rw [← hs] at hc
      rw [hc]
      rfl

theorem genSplit_fuel (sep : GoString) (hsep : sep ≠ []) (n k : Nat) (s : GoString)
    (hn : s.length ≤ n) (hk : s.length ≤ k) : genSplit sep n s = genSplit sep k s := by
  induction n generalizing s k with
  | zero =>
    have hs : s = [] := List.length_eq_zero.mp (Nat.le_zero.mp hn)
    subst hs
    cases k with
    | zero => rfl
    | succ k =>
      have : Index [] sep = none := by
        rw [Index_none_iff]
        exact fun hi => hsep (List.infix_nil.mp hi)
      simp [genSplit, this]
  | succ n ih =>
    cases hI : Index s sep with
    | none =>
      cases k with
      | zero => simp [genSplit, hI]
      | succ k => simp [genSplit, hI]
    | some m =>
      have hle := Index_some_le hI
      have hpos : 0 < sep.length := List.length_pos.mpr hsep
      cases k with
      | zero => omega
      | succ k =>
        simp only [genSplit, hI]
        rw [ih k _ (by simp only [List.length_drop]; omega)
          (by simp only [List.length_drop]; omega)]

theorem removeNameStuff_eq_getLast? (s : GoString) :
    removeNameStuff s = (Split s (lit ">>")).getLast? := by
  have hne : Split s (lit ">>") ≠ [] := genSplit_ne_nil _ _ _
  have hpos : 0 < (Split s (lit ">>")).length := List.length_pos.mpr hne
  simp only [removeNameStuff]
  rw [if_pos (by omega), List.getLast?_eq_getElem?]
  congr 1
  omega

theorem removeNameStuff_of_absent (s : GoString) (h : ¬ lit ">>" <:+: s) :
    removeNameStuff s = some s := by
  rw [removeNameStuff_eq_getLast?, Split]
  have hI := (Index_none_iff _ _).mpr h
  cases hs : s.length with
  | zero => simp [genSplit]
  | succ k => simp [genSplit, hI]

/-- C1 (as amended): for every string in which no three '>' stand in a row, `removeNameStuff`
returns the text after the last ">>", and the string itself when it holds no ">>". -/
theorem removeNameStuff_after_last_delimiter (s : GoString) (h : ¬ lit ">>>" <:+: s) :
    removeNameStuff s = some (afterLastDelimiter s) ∧
      (¬ lit ">>" <:+: s → removeNameStuff s = some s) := by
  refine ⟨?_, removeNameStuff_of_absent s⟩
  rw [removeNameStuff_eq_getLast?, Split]
  exact genSplit_getLast_afterLast _ _ (Nat.le_refl _) h

/-- The C1 statement at "Foo>>Bar>>Baz". -/
theorem removeNameStuff_after_last_delimiter_witness :
    ¬ lit ">>>" <:+: lit "Foo>>Bar>>Baz" ∧
      removeNameStuff (lit "Foo>>Bar>>Baz") = some (afterLastDelimiter (lit "Foo>>Bar>>Baz")) ∧
      afterLastDelimiter (lit "Foo>>Bar>>Baz") = lit "Baz" :=
  ⟨by decide, (removeNameStuff_after_last_delimiter _ (by decide)).1, by decide⟩

/-- C1 (counterexample): in "a>>>b" the last ">>" starts at the second '>', so the text after
it is "b"; the code cuts at the first ">>" and returns ">b". -/
theorem removeNameStuff_overlapping_delimiter :
    removeNameStuff (lit "a>>>b") = some (lit ">b") ∧
      afterLastDelimiter (lit "a>>>b") = lit "b" ∧
      lit ">>" <:+: lit "a>>>b" ∧
      removeNameStuff (lit "a>>>b") ≠ some (afterLastDelimiter (lit "a>>>b")) := by
  decide

theorem removeNameStuff_result (s : GoString) :
    ∃ r, removeNameStuff s = some r ∧ r <:+ s ∧ ¬ lit ">>" <:+: r ∧
      removeNameStuff r = some r ∧
      (removeNameStuff s).bind removeNameStuff = removeNameStuff s := by
  have hsep : lit ">>" ≠ [] := by decide
  obtain ⟨r, hr, hno, hcut⟩ := genSplit_getLast (lit ">>") hsep s.length s (Nat.le_refl _)
  have hrs : removeNameStuff s = some r := by
    rw [removeNameStuff_eq_getLast?, Split]; exact hr
  have hrr := removeNameStuff_of_absent r hno
  refine ⟨r, hrs, ?_, hno, hrr, ?_⟩
  · rcases hcut with h | ⟨p, hp⟩
    · rw [h]
    · exact ⟨p ++ lit ">>", hp.symm⟩
  · rw [hrs]; exact hrr

/-- C10: for every string, `removeNameStuff` is defined (the index of the last segment is in
bounds), its result is a suffix of the input without any ">>", and applying it again changes
nothing. -/
theorem removeNameStuff_defined_suffix_idempotent (s : GoString) :
    0 < (Split s (lit ">>")).length ∧
      ∃ r, removeNameStuff s = some r ∧ r <:+ s ∧ ¬ lit ">>" <:+: r ∧
        removeNameStuff r = some r ∧
        (removeNameStuff s).bind removeNameStuff = removeNameStuff s :=
  ⟨List.length_pos.mpr (genSplit_ne_nil _ _ _), removeNameStuff_result s⟩

/-! ## Presentation helpers -/

theorem fmtStarV_short (s : GoString) (h : s.length < 60) :
    fmtStarV (60 - (s.length : Int)) (lit " ") = List.replicate (60 - s.length) 32 := by
  have hlit : lit " " = [32] := by decide
  have h1 : ¬ ((60 : Int) - s.length > 1000000 ∨ (60 : Int) - s.length < -1000000) := by omega
  have h2 : ¬ ((60 : Int) - s.length < 0) := by omega
  have h3 : ((60 : Int) - s.length).toNat = (59 - s.length) + 1 := by omega
  have h4 : 60 - s.length = (59 - s.length) + 1 := by omega
  simp only [fmtStarV, h1, h2, if_false, padString, hlit, h3, h4, List.length_singleton,
    Nat.add_sub_cancel, Bool.false_eq_true]
  exact (List.replicate_succ' _ _).symm

theorem padded_length (s : GoString) (h : s.length < 60) :
    (s ++ List.replicate (60 - s.length) (32 : UInt8)).length = 60 := by
  simp only [List.length_append, List.length_replicate]
  omega

theorem fmtStarV_eq_expectedPad (s : GoString) :
    fmtStarV (60 - (s.length : Int)) (lit " ") = expectedPad s.length := by
  have hlit : lit " " = [32] := by decide
  by_cases h : s.length < 60
  · rw [fmtStarV_short s h, expectedPad, if_pos h]
  · by_cases h2 : s.length ≤ 1000060
    · rw [expectedPad, if_neg h, if_pos h2]
      have h1 : ¬ ((60 : Int) - s.length > 1000000 ∨ (60 : Int) - s.length < -1000000) := by
        omega
      by_cases h0 : s.length = 60
      · have h3 : ¬ ((60 : Int) - s.length < 0) := by omega
        have h4 : ((60 : Int) - s.length).toNat = 0 := by omega
        simp only [fmtStarV, h1, h3, if_false, padString, hlit, h4, h0]
        rfl
      · have h3 : (60 : Int) - s.length < 0 := by omega
        have h4 : (-((60 : Int) - s.length)).toNat = (s.length - 61) + 1 := by omega
        have h5 : max 1 (s.length - 60) = (s.length - 61) + 1 := by omega
        simp only [fmtStarV, h1, h3, if_false, if_true, padString, hlit, h4, h5,
          List.length_singleton, Nat.add_sub_cancel]
        rfl
    · rw [expectedPad, if_neg h, if_neg h2]
      have h1 : (60 : Int) - s.length > 1000000 ∨ (60 : Int) - s.length < -1000000 := by
        omega
      simp only [fmtStarV, h1, if_true]

theorem runeCount_ascii (s : GoString) (h : ∀ b ∈ s, b < 128) : runeCount s = s.length := by
  rw [runeCount, List.countP_eq_length]
  intro b hb
  simp [h b hb]

/-- C7 (as amended): for every status string each helper writes, after the carriage return,
the status and then the padding `expectedPad`: exactly `60 - len(s)` blanks when the status
is shorter than 60 bytes, which makes the text 60 bytes wide (60 characters for an ASCII
status); from 60 bytes on the pad count is zero or negative, the padding is still not empty
and the text is wider than 60 bytes. -/
theorem progress_line_padding (name league tabLeague stash countLeague stashtab checkName
    checkLeague : GoString) (countIndex countMax checkIndex checkTotal : Int) :
    printCharName name league =
        lit "\r" ++ (printCharName_s name league ++
          expectedPad (printCharName_s name league).length) ++ lit "\n" ∧
    printTab tabLeague stash =
        lit "\r" ++ (printTab_s tabLeague stash ++
          expectedPad (printTab_s tabLeague stash).length) ++ lit "\n" ∧
    printStashCount countLeague stashtab countIndex countMax =
        lit "\r" ++ (printStashCount_s countLeague stashtab countIndex countMax ++
          expectedPad (printStashCount_s countLeague stashtab countIndex countMax).length) ∧
    printChecking checkIndex checkTotal checkName checkLeague =
        lit "\r" ++ (checking_s checkIndex checkTotal checkName checkLeague ++
          expectedPad (checking_s checkIndex checkTotal checkName checkLeague).length) ∧
    ∀ s : GoString,
      (s.length < 60 →
        expectedPad s.length = List.replicate (60 - s.length) 32 ∧
        (s ++ expectedPad s.length).length = 60 ∧
        ((∀ b ∈ s, b < 128) → runeCount (s ++ expectedPad s.length) = 60)) ∧
      (60 ≤ s.length →
        (60 : Int) - (s.length : Int) ≤ 0 ∧
        expectedPad s.length ≠ [] ∧
        60 < (s ++ expectedPad s.length).length ∧
        (s.length ≤ 1000060 →
          expectedPad s.length = List.replicate (max 1 (s.length - 60)) 32) ∧
        (1000060 < s.length → expectedPad s.length = lit "%!(BADWIDTH)" ++ lit " ")) := by
  refine ⟨?_, ?_, ?_, ?_, fun s => ⟨fun h => ?_, fun h => ?_⟩⟩
  · simp only [printCharName, fmtStarV_eq_expectedPad, List.append_assoc]
  · simp only [printTab, fmtStarV_eq_expectedPad, List.append_assoc]
  · simp only [printStashCount, fmtStarV_eq_expectedPad, List.append_assoc]
  · simp only [printChecking, fmtStarV_eq_expectedPad, List.append_assoc]
  · have hp : expectedPad s.length = List.replicate (60 - s.length) 32 := by
      rw [expectedPad, if_pos h]
    refine ⟨hp, by rw [hp]; exact padded_length s h, fun hascii => ?_⟩
    rw [runeCount_ascii, hp, padded_length s h]
    intro b hb
    rcases List.mem_append.mp hb with hb | hb
    · exact hascii b hb
    · rw [hp] at hb
      rw [List.eq_of_mem_replicate hb]
      decide
  · have hn : ¬ s.length < 60 := by omega
    have hne : expectedPad s.length ≠ [] := by
      rw [expectedPad, if_neg hn]
      split
      · intro hc
        have := congrArg List.length hc
        simp only [List.length_replicate, List.length_nil] at this
        omega
      · decide
    refine ⟨by omega, hne, ?_, fun h2 => ?_, fun h2 => ?_⟩
    · have := List.length_pos.mpr hne
      simp only [List.length_append]
      omega
    · rw [expectedPad, if_neg hn, if_pos h2]
    · rw [expectedPad, if_neg hn, if_neg (by omega)]

/-- The C7 statement at the header "Standard - Tab 1" and the progress line of tab 1 of 12. -/
theorem progress_line_padding_witness :
    (printTab (lit "Standard") (lit "Tab 1") =
        lit "\r" ++ (lit "Standard - Tab 1" ++ List.replicate 44 32) ++ lit "\n") ∧
      (printStashCount (lit "Standard") (lit "Tab 1") 0 12 =
        lit "\r" ++ (lit "Standard  1/12 - Tab 1" ++ List.replicate 38 32)) ∧
      (lit "Standard - Tab 1" ++ expectedPad (lit "Standard - Tab 1").length).length = 60 :=
  have h := progress_line_padding (lit "Ann") (lit "Standard") (lit "Standard") (lit "Tab 1")
    (lit "Standard") (lit "Tab 1") (lit "Ann") (lit "Standard") 0 12 0 3
  ⟨h.2.1, h.2.2.1, ((h.2.2.2.2 (lit "Standard - Tab 1")).1 (by decide)).2.1⟩

/-- C7 (counterexample): a status of 61 bytes makes the pad count negative, one blank is
written all the same, and the text is 62 bytes wide; a status of exactly 60 bytes is followed
by one blank, not by none; and a short status holding the two-byte character "é" is padded
to 60 bytes, which are 59 characters. -/
theorem progress_line_padding_long_status :
    (printTab_s (List.replicate 58 97) []).length = 61 ∧
      (60 : Int) - ((printTab_s (List.replicate 58 97) []).length : Int) < 0 ∧
      printTab (List.replicate 58 97) [] =
        lit "\r" ++ (printTab_s (List.replicate 58 97) [] ++ lit " ") ++ lit "\n" ∧
      (printTab_s (List.replicate 58 97) [] ++ lit " ").length ≠ 60 ∧
      (printTab_s (List.replicate 57 97) []).length = 60 ∧
      printTab (List.replicate 57 97) [] =
        lit "\r" ++ (printTab_s (List.replicate 57 97) [] ++ lit " ") ++ lit "\n" ∧
      printTab [195, 169] [] =
        lit "\r" ++ (printTab_s [195, 169] [] ++ List.replicate 55 32) ++ lit "\n" ∧
      (printTab_s [195, 169] [] ++ List.replicate 55 32).length = 60 ∧
      runeCount (printTab_s [195, 169] [] ++ List.replicate 55 32) = 59 := by
  decide

/-- What the socketed-item line of the stash scanner does hold: the socketed item's type
line, 1-based position and raw modification list, in the same `(X+1|Y+1) -> [mods]` form as
the item line, followed by the parent's normalized name, type line and 1-based position in
the form the item line gives them; the line is the same whatever the socketed item is
called. -/
theorem socketed_line_contents (item parent : Item) :
    ∃ line itemLine parentLine parentName,
      printSocketedItem item parent = some line ∧
      printItem item = some itemLine ∧
      printItem parent = some parentLine ∧
      removeNameStuff parent.Name = some parentName ∧
      item.TypeLine <:+: line ∧ item.TypeLine <:+: itemLine ∧
      (fmtPosition item ++ lit " -> " ++ fmtStrings item.CosmeticMods) <:+: line ∧
      (fmtPosition item ++ lit " -> " ++ fmtStrings item.CosmeticMods) <:+: itemLine ∧
      (parentName ++ lit " (" ++ parent.TypeLine ++ lit ") " ++ fmtPosition parent) <:+: line ∧
      (parentName ++ lit " (" ++ parent.TypeLine ++ lit ") " ++ fmtPosition parent)
        <:+: parentLine ∧
      line = lit "\t" ++ item.TypeLine ++ lit " " ++
        (fmtPosition item ++ lit " -> " ++ fmtStrings item.CosmeticMods) ++
        lit " socketed in " ++
        (parentName ++ lit " (" ++ parent.TypeLine ++ lit ") " ++ fmtPosition parent) ++
        lit "\n" ∧
      ∀ otherName, printSocketedItem (.mk otherName item.TypeLine item.X item.Y
        item.CosmeticMods item.SocketedItems) parent = some line := by
  obtain ⟨parentName, hp, _⟩ := removeNameStuff_result parent.Name
  obtain ⟨itemName, hi, _⟩ := removeNameStuff_result item.Name
  refine ⟨_, _, _, parentName, by simp [printSocketedItem, hp]; rfl,
    by simp [printItem, hi]; rfl, by simp [printItem, hp]; rfl, hp, ?_, ?_, ?_, ?_, ?_, ?_, ?_, ?_⟩
  · exact ⟨lit "\t", _, by simp only [List.append_assoc]; rfl⟩
  · exact ⟨lit "\t" ++ itemName ++ lit " (", _, by simp only [List.append_assoc]; rfl⟩
  · exact ⟨lit "\t" ++ item.TypeLine ++ lit " ", _, by simp only [List.append_assoc]; rfl⟩
  · exact ⟨lit "\t" ++ itemName ++ lit " (" ++ item.TypeLine ++ lit ") ", _,
      by simp only [List.append_assoc]; rfl⟩
  · exact ⟨lit "\t" ++ item.TypeLine ++ lit " " ++ fmtPosition item ++ lit " -> " ++
      fmtStrings item.CosmeticMods ++ lit " socketed in ", lit "\n",
      by simp only [List.append_assoc]⟩
  · exact ⟨lit "\t", lit " -> " ++ fmtStrings parent.CosmeticMods ++ lit "\n",
      by simp only [List.append_assoc]⟩
  · simp only [List.append_assoc]
  · intro otherName
    simp [printSocketedItem, hp, fmtPosition, Item.TypeLine, Item.X, Item.Y,
      Item.CosmeticMods]

/-- C8: for a socketed item named "Zed" in a parent named "Old>>Bane", the line of
`printSocketedItem` does not contain "Zed", while `printItem` for the same item and the
socketed-item line of the character scanner both print it. -/
theorem socketed_line_omits_name :
    removeNameStuff (Item.Name (.mk (lit "Zed") (lit "Gem") 0 0 [lit "skin"] [])) =
        some (lit "Zed") ∧
      printSocketedItem (.mk (lit "Zed") (lit "Gem") 0 0 [lit "skin"] [])
          (.mk (lit "Old>>Bane") (lit "Bow") 1 2 [] []) =
        some (lit "\tGem (1|1) -> [skin] socketed in Bane (Bow) (2|3)\n") ∧
      ¬ lit "Zed" <:+: lit "\tGem (1|1) -> [skin] socketed in Bane (Bow) (2|3)\n" ∧
      printItem (.mk (lit "Zed") (lit "Gem") 0 0 [lit "skin"] []) =
        some (lit "\tZed (Gem) (1|1) -> [skin]\n") ∧
      printCharSocketedItem (.mk (lit "Zed") (lit "Gem") 0 0 [lit "skin"] [])
          (.mk (lit "Old>>Bane") (lit "Bow") 1 2 [] []) =
        some (lit "\t Zed (Gem)-> [skin] socketed in (Bane - Bow)\n") := by
  decide

/-! ## The inner loops, in closed form -/

theorem characterSocketedLoop_eq (character : Character) (item : Item) (socketed : List Item)
    (b : Bool) :
    characterSocketedLoop character item socketed b =
      (b || socketed.any hasMods,
        (if !b && socketed.any hasMods then
          [Event.printCharName character.Name character.League] else []) ++
          (socketed.filter hasMods).map (fun s => Event.printCharSocketedItem s item)) := by
  induction socketed generalizing b with
  | nil => simp [characterSocketedLoop]
  | cons x rest ih =>
    by_cases hx : 0 < x.CosmeticMods.length
    · have hm : hasMods x = true := by simp [hasMods, hx]
      cases b <;> simp [characterSocketedLoop, hx, hm, ih]
    · have hm : hasMods x = false := by simp [hasMods, hx]
      cases b <;> simp [characterSocketedLoop, hx, hm, ih]

theorem characterItemsLoop_eq (character : Character) (items : List Item) (b : Bool) :
    characterItemsLoop character items b =
      (b || items.any matchesItem,
        (if !b && items.any matchesItem then
          [Event.printCharName character.Name character.League] else []) ++
          characterReportLines items) := by
  induction items generalizing b with
  | nil => simp [characterItemsLoop, characterReportLines]
  | cons x rest ih =>
    have hrl : characterReportLines (x :: rest) =
        (if hasMods x then [Event.printCharItem x] else []) ++
          (x.SocketedItems.filter hasMods).map (fun s => Event.printCharSocketedItem s x) ++
          characterReportLines rest := by
      simp [characterReportLines]
    rw [hrl]
    by_cases hx : 0 < x.CosmeticMods.length
    · have hm : hasMods x = true := by simp [hasMods, hx]
      cases b <;>
        simp [characterItemsLoop, hx, hm, ih, characterSocketedLoop_eq, matchesItem]
    · have hm : hasMods x = false := by simp [hasMods, hx]
      cases hs : x.SocketedItems.any hasMods with
      | false =>
        have hf : x.SocketedItems.filter hasMods = [] := by
          rw [List.filter_eq_nil_iff]
          intro a ha
          have := List.any_eq_false.mp hs a ha
          simpa using this
        cases hr : rest.any matchesItem <;> cases b <;>
          simp [characterItemsLoop, hx, hm, ih, characterSocketedLoop_eq, matchesItem, hs, hr, hf]
      | true =>
        cases hr : rest.any matchesItem <;> cases b <;>
          simp [characterItemsLoop, hx, hm, ih, characterSocketedLoop_eq, matchesItem, hs, hr]

theorem filter_hasMods_eq_nil {l : List Item} (h : l.any hasMods = false) :
    l.filter hasMods = [] := by
  rw [List.filter_eq_nil_iff]
  intro a ha
  have := List.any_eq_false.mp h a ha
  simpa using this

theorem firstTabLoop_eq (league stash : GoString) (items : List Item) (b : Bool) :
    firstTabLoop league stash items b =
      (b || items.any hasMods,
        if !b && items.any hasMods then [Event.printTab league stash] else []) := by
  induction items generalizing b with
  | nil => simp [firstTabLoop]
  | cons x rest ih =>
    by_cases hx : 0 < x.CosmeticMods.length
    · have hm : hasMods x = true := by simp [hasMods, hx]
      cases b <;> simp [firstTabLoop, hx, hm, ih]
    · have hm : hasMods x = false := by simp [hasMods, hx]
      cases b <;> simp [firstTabLoop, hx, hm, ih]

theorem stashSocketedLoop_eq (league stash : GoString) (item : Item) (socketed : List Item)
    (b : Bool) :
    stashSocketedLoop league stash item socketed b =
      (b || socketed.any hasMods,
        (if !b && socketed.any hasMods then [Event.printTab league stash] else []) ++
          (socketed.filter hasMods).map (fun s => Event.printSocketedItem s item)) := by
  induction socketed generalizing b with
  | nil => simp [stashSocketedLoop]
  | cons x rest ih =>
    by_cases hx : 0 < x.CosmeticMods.length
    · have hm : hasMods x = true := by simp [hasMods, hx]
      cases b <;> simp [stashSocketedLoop, hx, hm, ih]
    · have hm : hasMods x = false := by simp [hasMods, hx]
      cases b <;> simp [stashSocketedLoop, hx, hm, ih]

theorem stashReportLines_cons (x : Item) (rest : List Item) :
    stashReportLines (x :: rest) =
      (if hasMods x then [Event.printItem x] else []) ++
        (x.SocketedItems.filter hasMods).map (fun s => Event.printSocketedItem s x) ++
        stashReportLines rest := by
  simp [stashReportLines]

theorem stashItemsLoop_eq (league stash : GoString) (items : List Item) (b : Bool) :
    stashItemsLoop league stash items b =
      (b || items.any matchesItem,
        (if !b && items.any matchesItem then [Event.printTab league stash] else []) ++
          stashReportLines items) := by
  induction items generalizing b with
  | nil => simp [stashItemsLoop, stashReportLines]
  | cons x rest ih =>
    rw [stashReportLines_cons]
    by_cases hx : 0 < x.CosmeticMods.length
    · have hm : hasMods x = true := by simp [hasMods, hx]
      cases b <;>
        simp [stashItemsLoop, hx, hm, ih, stashSocketedLoop_eq, matchesItem]
    · have hm : hasMods x = false := by simp [hasMods, hx]
      cases hs : x.SocketedItems.any hasMods with
      | false =>
        have hf := filter_hasMods_eq_nil hs
        cases hr : rest.any matchesItem <;> cases b <;>
          simp [stashItemsLoop, hx, hm, ih, stashSocketedLoop_eq, matchesItem, hs, hr, hf]
      | true =>
        cases hr : rest.any matchesItem <;> cases b <;>
          simp [stashItemsLoop, hx, hm, ih, stashSocketedLoop_eq, matchesItem, hs, hr]

theorem stashReportLines_of_no_match {items : List Item} (h : items.any matchesItem = false) :
    stashReportLines items = [] := by
  induction items with
  | nil => rfl
  | cons x rest ih =>
    simp only [List.any_cons, Bool.or_eq_false_iff, matchesItem] at h
    rw [stashReportLines_cons, ih h.2, filter_hasMods_eq_nil h.1.2]
    simp [h.1.1]

theorem characterReportLines_of_no_match {items : List Item}
    (h : items.any matchesItem = false) : characterReportLines items = [] := by
  induction items with
  | nil => rfl
  | cons x rest ih =>
    simp only [List.any_cons, Bool.or_eq_false_iff, matchesItem] at h
    have hc : characterReportLines (x :: rest) =
        (if hasMods x then [Event.printCharItem x] else []) ++
          (x.SocketedItems.filter hasMods).map (fun s => Event.printCharSocketedItem s x) ++
          characterReportLines rest := by
      simp [characterReportLines]
    rw [hc, ih h.2, filter_hasMods_eq_nil h.1.2]
    simp [h.1.1]

theorem stashReportLines_mem {items : List Item} {e : Event} (h : e ∈ stashReportLines items) :
    (∃ item ∈ items, e = Event.printItem item) ∨
      (∃ parent ∈ items, ∃ item ∈ parent.SocketedItems, e = Event.printSocketedItem item parent) := by
  simp only [stashReportLines, List.mem_flatMap, List.mem_append, List.mem_map,
    List.mem_filter] at h
  obtain ⟨x, hx, h | ⟨s, ⟨hs, _⟩, rfl⟩⟩ := h
  · left
    refine ⟨x, hx, ?_⟩
    split at h <;> simp_all
  · right
    exact ⟨x, hx, s, hs, rfl⟩

theorem characterReportLines_mem {items : List Item} {e : Event}
    (h : e ∈ characterReportLines items) : e.isCharHeader = false ∧ e.isReport = true := by
  simp only [characterReportLines, List.mem_flatMap, List.mem_append, List.mem_map,
    List.mem_filter] at h
  obtain ⟨x, _, h | ⟨s, _, rfl⟩⟩ := h
  · split at h
    · simp only [List.mem_singleton] at h
      subst h
      exact ⟨rfl, rfl⟩
    · simp at h
  · exact ⟨rfl, rfl⟩

/-! ## Cutting a trace at an event -/

theorem append_split {α : Type} (q : α → Bool) {A B pre post : List α} {e : α}
    (hA : ∀ x ∈ A, q x = false) (h : pre ++ e :: post = A ++ B) (he : q e = true) :
    ∃ pre2, pre = A ++ pre2 ∧ pre2 ++ e :: post = B := by
  induction A generalizing pre with
  | nil => exact ⟨pre, rfl, by simpa using h⟩
  | cons a A ih =>
    cases pre with
    | nil =>
      simp only [List.nil_append, List.cons_append, List.cons.injEq] at h
      have := hA a (List.mem_cons_self _ _)
      rw [← h.1, he] at this
      cases this
    | cons x pre =>
      simp only [List.cons_append, List.cons.injEq] at h
      obtain ⟨pre2, h1, h2⟩ := ih (fun y hy => hA y (List.mem_cons_of_mem _ hy)) h.2
      exact ⟨pre2, by rw [h.1, h1]; rfl, h2⟩

theorem append_split_right {α : Type} (q : α → Bool) {A B pre post : List α} {e : α}
    (hB : ∀ x ∈ B, q x = false) (h : pre ++ e :: post = A ++ B) (he : q e = true) :
    ∃ post2, post = post2 ++ B ∧ pre ++ e :: post2 = A := by
  induction pre generalizing A with
  | nil =>
    cases A with
    | nil =>
      simp only [List.nil_append] at h
      have := hB e (by rw [← h]; exact List.mem_cons_self _ _)
      rw [he] at this
      cases this
    | cons a A =>
      simp only [List.nil_append, List.cons_append, List.cons.injEq] at h
      exact ⟨A, h.2, by rw [h.1]; rfl⟩
  | cons x pre ih =>
    cases A with
    | nil =>
      simp only [List.nil_append] at h
      have := hB e (by rw [← h]; simp)
      rw [he] at this
      cases this
    | cons a A =>
      simp only [List.cons_append, List.cons.injEq] at h
      obtain ⟨post2, h1, h2⟩ := ih h.2
      exact ⟨post2, h1, by rw [h.1, ← h2]; rfl⟩

/-! ## Character scanner -/

theorem charactersLoop_head {σ : Type} (p : Poe σ) (total : Int) (characters : List Character)
    (index : Int) (s : σ) :
    ((charactersLoop p total characters index s).trace = [] ∧
        (charactersLoop p total characters index s).outcome = .completed) ∨
      ∃ r, (charactersLoop p total characters index s).trace = Event.printBlank :: r := by
  cases characters with
  | nil => exact Or.inl ⟨rfl, rfl⟩
  | cons c cs =>
    right
    simp only [charactersLoop]
    rcases p.GetCharacterItems s c.Name with ⟨r, s1⟩
    cases r with
    | error err => exact ⟨_, rfl⟩
    | ok ci => exact ⟨_, rfl⟩

theorem characterItemsLoop_isItemsFetch {character : Character} {items : List Item} {b : Bool}
    {e : Event} (h : e ∈ (characterItemsLoop character items b).2) :
    e.isItemsFetch = false := by
  rw [characterItemsLoop_eq] at h
  rcases List.mem_append.mp h with h | h
  · split at h
    · simp only [List.mem_singleton] at h
      rw [h]
      rfl
    · simp at h
  · have := (characterReportLines_mem h).2
    cases e <;> simp_all [Event.isReport, Event.isItemsFetch]

theorem charactersLoop_at_fetch {σ : Type} (p : Poe σ) (total : Int)
    (characters : List Character) (index : Int) (s : σ) (pre post : List Event)
    (name : GoString) (charItems : CharacterItems)
    (h : (charactersLoop p total characters index s).trace =
      pre ++ Event.GetCharacterItems name (.ok charItems) :: post) :
    ∃ character ∈ characters, ∃ front position rest,
      character.Name = name ∧
      pre = front ++ [Event.printBlank,
        Event.printChecking position total name character.League] ∧
      post = (if charItems.Items.any matchesItem then
          [Event.printCharName name character.League] else []) ++
        characterReportLines charItems.Items ++ rest ∧
      ((rest = [] ∧ (charactersLoop p total characters index s).outcome = .completed) ∨
        ∃ r, rest = Event.printBlank :: r) := by
  induction characters generalizing index s pre with
  | nil =>
    simp only [charactersLoop] at h
    cases pre <;> simp at h
  | cons c cs ih =>
    simp only [charactersLoop] at h ⊢
    rcases hf : p.GetCharacterItems s c.Name with ⟨r, s1⟩
    rw [hf] at h
    cases r with
    | error err =>
      exfalso
      simp only at h
      have hmem : Event.GetCharacterItems name (.ok charItems) ∈
          [Event.printBlank, Event.printChecking index total c.Name c.League,
            Event.GetCharacterItems c.Name (.error err), Event.displayStartupError err] := by
        rw [h]
        simp
      simp at hmem
    | ok ci =>
      simp only at h ⊢
      have h' : pre ++ Event.GetCharacterItems name (.ok charItems) :: post =
          [Event.printBlank, Event.printChecking index total c.Name c.League] ++
            (Event.GetCharacterItems c.Name (.ok ci) ::
              ((characterItemsLoop c ci.Items false).2 ++
                (charactersLoop p total cs (index + 1) s1).trace)) := by
        rw [← h]
        simp only [List.cons_append, List.nil_append, List.append_assoc]
      obtain ⟨pre2, hpre, h2⟩ := append_split Event.isItemsFetch
        (by
          intro x hx
          simp only [List.mem_cons, List.mem_singleton, List.not_mem_nil, or_false] at hx
          rcases hx with rfl | rfl <;> rfl) h' rfl
      cases pre2 with
      | nil =>
        simp only [List.nil_append, List.cons.injEq, Event.GetCharacterItems.injEq,
          Except.ok.injEq] at h2
        obtain ⟨⟨hname, hci⟩, hpost⟩ := h2
        subst hci
        refine ⟨c, List.mem_cons_self _ _, [], index,
          (charactersLoop p total cs (index + 1) s1).trace, hname.symm, ?_, ?_, ?_⟩
        · rw [hpre, hname]
          rfl
        · rw [hpost, characterItemsLoop_eq, hname]
          simp
        · exact charactersLoop_head p total cs (index + 1) s1
      | cons x pre3 =>
        simp only [List.cons_append, List.cons.injEq] at h2
        obtain ⟨hx, h3⟩ := h2
        obtain ⟨pre4, hpre3, h4⟩ := append_split Event.isItemsFetch
          (fun y hy => characterItemsLoop_isItemsFetch hy) h3 rfl
        obtain ⟨character, hmem, front, position, rest, hname, hfront, hpost, hrest⟩ :=
          ih (index + 1) s1 pre4 h4.symm
        refine ⟨character, List.mem_cons_of_mem _ hmem,
          [Event.printBlank, Event.printChecking index total c.Name c.League] ++
            (x :: ((characterItemsLoop c ci.Items false).2 ++ front)),
          position, rest, hname, ?_, hpost, hrest⟩
        rw [hpre, hpre3, hfront]
        simp only [List.cons_append, List.nil_append, List.append_assoc]

/-- C3: the trace of `poeFindCharacterMTX` is the fetch of the character list, the loop
over the characters from index 0, and the closing line; wherever a character's items were
fetched, the progress line of that character stands before the fetch and after it come no
header when nothing matches, otherwise exactly one header, then the report lines in
traversal order (an item's line, then the lines of the items socketed in it), and then the
next character's progress line or the closing line. -/
theorem character_header_once {σ : Type} (p : Poe σ) (conf : Config) (s : σ) :
    (∀ characters s1, p.GetCharacters s = (.ok characters, s1) →
      (poeFindCharacterMTX p conf s).trace =
        Event.GetCharacters (.ok characters) ::
          (charactersLoop p characters.length characters 0 s1).trace ++
          (if (charactersLoop p characters.length characters 0 s1).outcome = .completed
            then [Event.printEnd] else [])) ∧
    (∀ pre post name charItems,
      (poeFindCharacterMTX p conf s).trace =
        pre ++ Event.GetCharacterItems name (.ok charItems) :: post →
      ∃ characters s1 character front position rest,
        p.GetCharacters s = (.ok characters, s1) ∧ character ∈ characters ∧
        character.Name = name ∧
        pre = front ++ [Event.printBlank,
          Event.printChecking position characters.length name character.League] ∧
        post = (if charItems.Items.any matchesItem then
            [Event.printCharName name character.League] else []) ++
          characterReportLines charItems.Items ++ rest ∧
        (rest = [Event.printEnd] ∨ ∃ r, rest = Event.printBlank :: r)) ∧
    (∀ (total index : Int) (character : Character) (rest : List Character) (s0 s1 : σ)
      (charItems : CharacterItems),
      p.GetCharacterItems s0 character.Name = (.ok charItems, s1) →
      (charactersLoop p total (character :: rest) index s0).trace =
        [.printBlank, .printChecking index total character.Name character.League,
          .GetCharacterItems character.Name (.ok charItems)] ++
        (if charItems.Items.any matchesItem then
          [Event.printCharName character.Name character.League] else []) ++
        characterReportLines charItems.Items ++
        (charactersLoop p total rest (index + 1) s1).trace) ∧
    (∀ items : List Item,
      (∀ e ∈ characterReportLines items, e.isCharHeader = false ∧ e.isReport = true) ∧
      (items.any matchesItem = false → characterReportLines items = []) ∧
      (∀ item socketedItem name league, hasMods item = true → hasMods socketedItem = true →
        item.SocketedItems = [socketedItem] → items = [item] →
        (if items.any matchesItem then [Event.printCharName name league] else []) ++
          characterReportLines items =
        [.printCharName name league, .printCharItem item,
          .printCharSocketedItem socketedItem item])) := by
  refine ⟨?_, ?_, ?_, ?_⟩
  · intro characters s1 hc
    simp only [poeFindCharacterMTX, hc]
    cases ho : (charactersLoop p characters.length characters 0 s1).outcome <;> simp
  · intro pre post name charItems h
    simp only [poeFindCharacterMTX] at h
    rcases hc : p.GetCharacters s with ⟨r, s1⟩
    rw [hc] at h
    cases r with
    | error err =>
      exfalso
      simp only at h
      have hmem : Event.GetCharacterItems name (.ok charItems) ∈
          [Event.GetCharacters (.error err), Event.displayStartupError err] := by
        rw [h]
        simp
      simp at hmem
    | ok characters =>
      simp only at h
      have hshape : ∃ tail, pre ++ Event.GetCharacterItems name (.ok charItems) :: post =
          [Event.GetCharacters (.ok characters)] ++
            ((charactersLoop p characters.length characters 0 s1).trace ++ tail) ∧
          (∀ x ∈ tail, x.isItemsFetch = false) ∧
          ((charactersLoop p characters.length characters 0 s1).outcome = .completed →
            tail = [Event.printEnd]) := by
        cases ho : (charactersLoop p characters.length characters 0 s1).outcome
        · rw [ho] at h
          refine ⟨[Event.printEnd], ?_, ?_, fun _ => rfl⟩
          · rw [← h]
            simp
          · intro x hx
            simp only [List.mem_singleton] at hx
            rw [hx]
            rfl
        · rw [ho] at h
          exact ⟨[], by rw [← h]; simp, by simp, fun hc => by cases hc⟩
        · rw [ho] at h
          exact ⟨[], by rw [← h]; simp, by simp, fun hc => by cases hc⟩
      obtain ⟨tail, h1, htail, hend⟩ := hshape
      obtain ⟨pre2, hpre, h2⟩ := append_split Event.isItemsFetch
        (by
          intro x hx
          simp only [List.mem_singleton] at hx
          rw [hx]
          rfl) h1 rfl
      obtain ⟨post2, hpost, h3⟩ := append_split_right Event.isItemsFetch htail h2 rfl
      obtain ⟨character, hmem, front, position, rest, hname, hfront, hp2, hrest⟩ :=
        charactersLoop_at_fetch p characters.length characters 0 s1 pre2 post2 name charItems
          h3.symm
      refine ⟨characters, s1, character, [Event.GetCharacters (.ok characters)] ++ front,
        position, rest ++ tail, rfl, hmem, hname, ?_, ?_, ?_⟩
      · rw [hpre, hfront]
        simp
      · rw [hpost, hp2]
        simp
      · rcases hrest with ⟨hr, ho⟩ | ⟨r, hr⟩
        · left
          rw [hr, hend ho]
          rfl
        · right
          exact ⟨r ++ tail, by rw [hr]; rfl⟩
  · intro total index character rest s0 s1 charItems h
    simp [charactersLoop, h, characterItemsLoop_eq]
  · intro items
    refine ⟨fun e he => characterReportLines_mem he, characterReportLines_of_no_match, ?_⟩
    intro item socketedItem name league hi hs hsock hitems
    simp [hitems, characterReportLines, matchesItem, hi, hs, hsock]

/-- The C3 statement for an account with one character whose only item and the gem socketed
in it both match. -/
theorem character_header_once_witness :
    sampleAccount.GetCharacters () = (.ok [⟨lit "Ann", lit "Standard"⟩], ()) ∧
      (poeFindCharacterMTX sampleAccount (sampleConfig []) ()).trace =
        [.GetCharacters (.ok [⟨lit "Ann", lit "Standard"⟩]),
          .printBlank, .printChecking 0 1 (lit "Ann") (lit "Standard"),
          .GetCharacterItems (lit "Ann") (.ok ⟨[skinnedWithGem]⟩),
          .printCharName (lit "Ann") (lit "Standard"), .printCharItem skinnedWithGem,
          .printCharSocketedItem (skinned "Gem") skinnedWithGem, .printEnd] :=
  ⟨rfl, ((character_header_once sampleAccount (sampleConfig []) ()).1
    [⟨lit "Ann", lit "Standard"⟩] () rfl).trans rfl⟩

/-! ## Stash scanner -/

/-- C2: with two matching tabs in one league the header is printed for the first of them only:
the second tab's report line follows without a header of its own. -/
theorem stash_header_second_tab_missing :
    (poeFindStashMTX sampleAccount (sampleConfig [lit "L"]) ()).trace =
      [.GetStash (lit "L") 0 1 (.ok ⟨3, sampleTabs, []⟩),
        .printStashCount (lit "L") (lit "T0") 0 3, .Sleep 1000000000,
        .GetStash (lit "L") 1 0 (.ok ⟨0, [], [skinned "A"]⟩),
        .printStashCount (lit "L") (lit "T1") 1 3,
        .printTab (lit "L") (lit "T1"), .printItem (skinned "A"), .Sleep 1000000000,
        .GetStash (lit "L") 2 0 (.ok ⟨0, [], [skinned "B"]⟩),
        .printStashCount (lit "L") (lit "T2") 2 3,
        .printItem (skinned "B"), .Sleep 1000000000] ∧
      ((poeFindStashMTX sampleAccount (sampleConfig [lit "L"]) ()).trace.filter
        Event.isTabHeader).length = 1 := by
  constructor <;> rfl

/-- C6: a league whose first fetch reports zero tabs contributes that one fetch and nothing
else, and the scan goes on with the next league. -/
theorem empty_league_skipped {σ : Type} (p : Poe σ) (conf : Config) (league : GoString)
    (rest : List GoString) (s s1 : σ) (firstTab : Stash)
    (hfetch : p.GetStash s league 0 1 = (.ok firstTab, s1))
    (hzero : firstTab.NumTabs = 0) :
    (stashLeague p conf league s).trace = [.GetStash league 0 1 (.ok firstTab)] ∧
      (stashLeague p conf league s).outcome = .completed ∧
      (leaguesLoop p conf (league :: rest) s).trace =
        .GetStash league 0 1 (.ok firstTab) :: (leaguesLoop p conf rest s1).trace ∧
      (leaguesLoop p conf (league :: rest) s).outcome = (leaguesLoop p conf rest s1).outcome := by
  have h1 : stashLeague p conf league s = ⟨[.GetStash league 0 1 (.ok firstTab)], .completed, s1⟩ := by
    simp [stashLeague, hfetch, hzero]
  simp [leaguesLoop, h1]

theorem empty_league_skipped_witness :
    emptyAccount.GetStash () (lit "Hardcore") 0 1 = (.ok ⟨0, [], []⟩, ()) ∧
      (leaguesLoop emptyAccount (sampleConfig []) [lit "Hardcore", lit "Standard"] ()).trace =
        [.GetStash (lit "Hardcore") 0 1 (.ok ⟨0, [], []⟩),
          .GetStash (lit "Standard") 0 1 (.ok ⟨0, [], []⟩)] :=
  ⟨rfl, (empty_league_skipped emptyAccount (sampleConfig []) (lit "Hardcore") [lit "Standard"]
    () () ⟨0, [], []⟩ rfl rfl).2.2.1.trans rfl⟩

theorem stashItemsLoop_mem {league stash : GoString} {items : List Item} {b : Bool} {e : Event}
    (h : e ∈ (stashItemsLoop league stash items b).2) :
    e = Event.printTab league stash ∨ (∃ item ∈ items, e = Event.printItem item) ∨
      (∃ parent ∈ items, ∃ item ∈ parent.SocketedItems,
        e = Event.printSocketedItem item parent) := by
  rw [stashItemsLoop_eq] at h
  simp only [List.mem_append] at h
  rcases h with h | h
  · left
    split at h <;> simp_all
  · right
    exact stashReportLines_mem h

theorem firstTabLoop_mem {league stash : GoString} {items : List Item} {b : Bool} {e : Event}
    (h : e ∈ (firstTabLoop league stash items b).2) : e = Event.printTab league stash := by
  rw [firstTabLoop_eq] at h
  split at h <;> simp_all

theorem reportsFromLoopTabs_append {index : Int} {items : List Item} (hindex : 1 ≤ index)
    (body rest : List Event)
    (hbody : ∀ e ∈ body, (∃ league stash, e = Event.printTab league stash) ∨
      (∃ item ∈ items, e = Event.printItem item) ∨
      (∃ parent ∈ items, ∃ item ∈ parent.SocketedItems,
        e = Event.printSocketedItem item parent))
    (hrest : reportsFromLoopTabs (some (index, items)) rest) :
    reportsFromLoopTabs (some (index, items)) (body ++ rest) := by
  induction body with
  | nil => simpa using hrest
  | cons e body ih =>
    have ih := ih (fun x hx => hbody x (List.mem_cons_of_mem _ hx))
    rcases hbody e (List.mem_cons_self _ _) with ⟨l, n, rfl⟩ | ⟨item, hi, rfl⟩ |
      ⟨parent, hp, item, hi, rfl⟩
    · simpa [reportsFromLoopTabs] using ih
    · simp only [List.cons_append, reportsFromLoopTabs]
      exact ⟨⟨index, items, rfl, hindex, hi⟩, ih⟩
    · simp only [List.cons_append, reportsFromLoopTabs]
      exact ⟨⟨index, items, rfl, hindex, hp, hi⟩, ih⟩

theorem tabsLoop_reports {σ : Type} (p : Poe σ) (conf : Config) (league : GoString)
    (firstTab : Stash) (remaining : Nat) (i : Int) (b : Bool) (s : σ)
    (current : Option (Int × List Item)) (hi : 1 ≤ i) :
    reportsFromLoopTabs current (tabsLoop p conf league firstTab remaining i b s).trace := by
  induction remaining generalizing i b s current with
  | zero => simp [tabsLoop, reportsFromLoopTabs]
  | succ n ih =>
    simp only [tabsLoop]
    rcases hf : p.GetStash s league i 0 with ⟨r, s1⟩
    cases r with
    | error err => simp [reportsFromLoopTabs]
    | ok currentTab =>
      cases ht : firstTab.Tabs[i.toNat]? with
      | none => simp [reportsFromLoopTabs]
      | some tab =>
        simp only [List.cons_append, List.nil_append, reportsFromLoopTabs]
        apply reportsFromLoopTabs_append hi
        · intro e he
          rcases stashItemsLoop_mem he with h | h | h
          · exact Or.inl ⟨_, _, h⟩
          · exact Or.inr (Or.inl h)
          · exact Or.inr (Or.inr h)
        · simp only [reportsFromLoopTabs]
          exact ih (i + 1) _ s1 _ (by omega)

theorem tabsLoop_no_header {σ : Type} (p : Poe σ) (conf : Config) (league : GoString)
    (firstTab : Stash) (remaining : Nat) (i : Int) (s : σ) :
    ∀ e ∈ (tabsLoop p conf league firstTab remaining i true s).trace, e.isTabHeader = false := by
  induction remaining generalizing i s with
  | zero => simp [tabsLoop]
  | succ n ih =>
    simp only [tabsLoop]
    rcases hf : p.GetStash s league i 0 with ⟨r, s1⟩
    cases r with
    | error err => simp [Event.isTabHeader]
    | ok currentTab =>
      cases ht : firstTab.Tabs[i.toNat]? with
      | none => simp [Event.isTabHeader]
      | some tab =>
        simp only [stashItemsLoop_eq, Bool.true_or, Bool.not_true, Bool.false_and,
          Bool.false_eq_true, if_false, List.nil_append]
        intro e he
        simp only [List.cons_append, List.nil_append, List.mem_cons, List.mem_append] at he
        rcases he with rfl | rfl | he | rfl | he
        · rfl
        · rfl
        · rcases stashReportLines_mem he with ⟨_, _, rfl⟩ | ⟨_, _, _, _, rfl⟩ <;> rfl
        · rfl
        · exact ih (i + 1) s1 e he

theorem stashLeague_tab0_header {σ : Type} (p : Poe σ) (conf : Config) (league : GoString)
    (s s1 : σ) (firstTab : Stash) (tab0 : Tab)
    (hfetch : p.GetStash s league 0 1 = (.ok firstTab, s1))
    (hn : 1 ≤ firstTab.NumTabs)
    (htab : firstTab.Tabs[0]? = some tab0)
    (hitem : ∃ item ∈ firstTab.Items, 0 < item.CosmeticMods.length) :
    ∃ rest, (stashLeague p conf league s).trace =
        [.GetStash league 0 1 (.ok firstTab),
          .printStashCount league tab0.N 0 firstTab.NumTabs, .Sleep (delay conf),
          .printTab league tab0.N] ++ rest ∧
      (∀ e ∈ rest, e.isTabHeader = false) ∧
      reportsFromLoopTabs (some (0, firstTab.Items)) rest := by
  have hany : firstTab.Items.any hasMods = true := by
    obtain ⟨item, hmem, hpos⟩ := hitem
    exact List.any_eq_true.mpr ⟨item, hmem, by simp [hasMods, hpos]⟩
  have hne : firstTab.NumTabs ≠ 0 := by omega
  refine ⟨(tabsLoop p conf league firstTab (firstTab.NumTabs - 1).toNat 1 true s1).trace,
    ?_, tabsLoop_no_header _ _ _ _ _ _ _, tabsLoop_reports _ _ _ _ _ _ _ _ _ (by omega)⟩
  simp [stashLeague, hfetch, hne, htab, firstTabLoop_eq, hany]

theorem tabsLoop_isFirstPage {σ : Type} (p : Poe σ) (conf : Config) (league : GoString)
    (firstTab : Stash) (remaining : Nat) (i : Int) (b : Bool) (s : σ) :
    ∀ e ∈ (tabsLoop p conf league firstTab remaining i b s).trace, e.isFirstPage = false := by
  induction remaining generalizing i b s with
  | zero => simp [tabsLoop]
  | succ n ih =>
    simp only [tabsLoop]
    rcases hf : p.GetStash s league i 0 with ⟨r, s1⟩
    cases r with
    | error err => simp [Event.isFirstPage]
    | ok currentTab =>
      cases ht : firstTab.Tabs[i.toNat]? with
      | none => simp [Event.isFirstPage]
      | some tab =>
        intro e he
        simp only [List.cons_append, List.nil_append, List.mem_cons, List.mem_append] at he
        rcases he with rfl | rfl | he | rfl | he
        · simp [Event.isFirstPage]
        · rfl
        · rcases stashItemsLoop_mem he with rfl | ⟨_, _, rfl⟩ | ⟨_, _, _, _, rfl⟩ <;> rfl
        · rfl
        · exact ih (i + 1) _ s1 e he

theorem stashLeague_shape {σ : Type} (p : Poe σ) (conf : Config) (league : GoString) (s : σ) :
    ∃ body, (stashLeague p conf league s).trace =
        Event.GetStash league 0 1 (p.GetStash s league 0 1).1 :: body ∧
      ∀ e ∈ body, e.isFirstPage = false := by
  simp only [stashLeague]
  rcases hf : p.GetStash s league 0 1 with ⟨r, s1⟩
  cases r with
  | error err => exact ⟨_, rfl, by simp [Event.isFirstPage]⟩
  | ok firstTab =>
    simp only
    by_cases hz : firstTab.NumTabs = 0
    · rw [if_pos hz]
      exact ⟨[], rfl, by simp⟩
    · rw [if_neg hz]
      cases ht : firstTab.Tabs[0]? with
      | none => exact ⟨[], rfl, by simp⟩
      | some tab =>
        refine ⟨[Event.printStashCount league tab.N 0 firstTab.NumTabs,
          Event.Sleep (delay conf)] ++ (firstTabLoop league tab.N firstTab.Items false).2 ++
          (tabsLoop p conf league firstTab (firstTab.NumTabs - 1).toNat 1
            (firstTabLoop league tab.N firstTab.Items false).1 s1).trace, rfl, ?_⟩
        intro e he
        simp only [List.cons_append, List.nil_append, List.mem_cons, List.mem_append] at he
        rcases he with rfl | rfl | he | he
        · rfl
        · rfl
        · rw [firstTabLoop_mem he]
          rfl
        · exact tabsLoop_isFirstPage _ _ _ _ _ _ _ _ e he

theorem leaguesLoop_cons_trace {σ : Type} (p : Poe σ) (conf : Config) (league : GoString)
    (rest : List GoString) (s : σ) :
    ∃ tail, (leaguesLoop p conf (league :: rest) s).trace =
        (stashLeague p conf league s).trace ++ tail ∧
      (tail = [] ∨
        ((stashLeague p conf league s).outcome = .completed ∧
          tail = (leaguesLoop p conf rest (stashLeague p conf league s).state).trace)) := by
  simp only [leaguesLoop]
  cases ho : (stashLeague p conf league s).outcome with
  | completed => exact ⟨_, rfl, Or.inr ⟨rfl, rfl⟩⟩
  | returned => exact ⟨[], by simp, Or.inl rfl⟩
  | panicked => exact ⟨[], by simp, Or.inl rfl⟩

theorem leaguesLoop_head {σ : Type} (p : Poe σ) (conf : Config) (leagues : List GoString)
    (s : σ) :
    (leaguesLoop p conf leagues s).trace = [] ∨
      ∃ league answer rest,
        (leaguesLoop p conf leagues s).trace = Event.GetStash league 0 1 answer :: rest := by
  cases leagues with
  | nil => exact Or.inl rfl
  | cons l ls =>
    right
    obtain ⟨tail, ht, _⟩ := leaguesLoop_cons_trace p conf l ls s
    obtain ⟨body, hb, _⟩ := stashLeague_shape p conf l s
    exact ⟨l, _, body ++ tail, by rw [ht, hb]; rfl⟩

theorem leaguesLoop_at_first_page {σ : Type} (p : Poe σ) (conf : Config)
    (leagues : List GoString) (s : σ) (pre post : List Event) (league : GoString)
    (firstTab : Stash) (tab0 : Tab)
    (h : (leaguesLoop p conf leagues s).trace =
      pre ++ Event.GetStash league 0 1 (.ok firstTab) :: post)
    (hn : 1 ≤ firstTab.NumTabs) (htab : firstTab.Tabs[0]? = some tab0)
    (hitem : ∃ item ∈ firstTab.Items, 0 < item.CosmeticMods.length) :
    ∃ loopRest after,
      post = [Event.printStashCount league tab0.N 0 firstTab.NumTabs, Event.Sleep (delay conf),
        Event.printTab league tab0.N] ++ loopRest ++ after ∧
      (∀ e ∈ loopRest, e.isTabHeader = false ∧ e.isFirstPage = false) ∧
      reportsFromLoopTabs (some (0, firstTab.Items)) loopRest ∧
      (after = [] ∨ ∃ next answer rest, after = Event.GetStash next 0 1 answer :: rest) := by
  induction leagues generalizing s pre with
  | nil =>
    simp only [leaguesLoop] at h
    cases pre <;> simp at h
  | cons l ls ih =>
    obtain ⟨tail, ht, htail⟩ := leaguesLoop_cons_trace p conf l ls s
    obtain ⟨body, hb, hbody⟩ := stashLeague_shape p conf l s
    rw [ht, hb] at h
    cases pre with
    | nil =>
      simp only [List.nil_append, List.cons_append, List.cons.injEq, Event.GetStash.injEq,
        true_and] at h
      obtain ⟨⟨hl, hans⟩, hpost⟩ := h
      subst hl
      have hfetch : p.GetStash s l 0 1 = (.ok firstTab, (p.GetStash s l 0 1).2) := by
        rw [← hans]
      obtain ⟨rest, hrest, hnohead, hreports⟩ :=
        stashLeague_tab0_header p conf l s _ firstTab tab0 hfetch hn htab hitem
      rw [hb, ← hans] at hrest
      simp only [List.cons_append, List.nil_append, List.cons.injEq, true_and] at hrest
      refine ⟨rest, tail, ?_, ?_, hreports, ?_⟩
      · rw [← hpost, hrest]
        simp
      · intro e he
        refine ⟨hnohead e he, hbody e ?_⟩
        rw [hrest]
        simp [he]
      · rcases htail with ht0 | ⟨_, ht1⟩
        · exact Or.inl ht0
        · rw [ht1]
          exact leaguesLoop_head p conf ls _
    | cons x pre1 =>
      simp only [List.cons_append, List.cons.injEq] at h
      obtain ⟨pre2, _, h2⟩ := append_split Event.isFirstPage hbody h.2.symm
        (by simp [Event.isFirstPage])
      rcases htail with ht0 | ⟨_, ht1⟩
      · rw [ht0] at h2
        cases pre2 <;> simp at h2
      · rw [ht1] at h2
        exact ih _ pre2 h2.symm

theorem reportsFromLoopTabs_concat (a b : List Event) (current : Option (Int × List Item))
    (ha : reportsFromLoopTabs current a) (hb : ∀ c, reportsFromLoopTabs c b) :
    reportsFromLoopTabs current (a ++ b) := by
  induction a generalizing current with
  | nil => simpa using hb current
  | cons e a ih =>
    cases e with
    | GetStash league index tabs r =>
      cases r with
      | error err =>
        simp only [List.cons_append, reportsFromLoopTabs] at ha ⊢
        exact ih _ ha
      | ok tab =>
        simp only [List.cons_append, reportsFromLoopTabs] at ha ⊢
        exact ih _ ha
    | printItem item =>
      simp only [List.cons_append, reportsFromLoopTabs] at ha ⊢
      exact ⟨ha.1, ih _ ha.2⟩
    | printSocketedItem item parent =>
      simp only [List.cons_append, reportsFromLoopTabs] at ha ⊢
      exact ⟨ha.1, ih _ ha.2⟩
    | _ =>
      simp only [List.cons_append, reportsFromLoopTabs] at ha ⊢
      exact ih _ ha

theorem stashLeague_reports {σ : Type} (p : Poe σ) (conf : Config) (league : GoString) (s : σ)
    (current : Option (Int × List Item)) :
    reportsFromLoopTabs current (stashLeague p conf league s).trace := by
  simp only [stashLeague]
  rcases hf : p.GetStash s league 0 1 with ⟨r, s1⟩
  cases r with
  | error err => simp [reportsFromLoopTabs]
  | ok firstTab =>
    simp only
    by_cases hz : firstTab.NumTabs = 0
    · rw [if_pos hz]
      simp [reportsFromLoopTabs]
    · rw [if_neg hz]
      cases ht : firstTab.Tabs[0]? with
      | none => simp [reportsFromLoopTabs]
      | some tab =>
        simp only
        apply reportsFromLoopTabs_concat
        · rw [firstTabLoop_eq]
          split <;> simp [reportsFromLoopTabs]
        · intro c
          exact tabsLoop_reports _ _ _ _ _ _ _ _ _ (le_refl _)

theorem leaguesLoop_reports {σ : Type} (p : Poe σ) (conf : Config) (leagues : List GoString)
    (s : σ) (current : Option (Int × List Item)) :
    reportsFromLoopTabs current (leaguesLoop p conf leagues s).trace := by
  induction leagues generalizing s current with
  | nil => simp [leaguesLoop, reportsFromLoopTabs]
  | cons l ls ih =>
    obtain ⟨tail, ht, htail⟩ := leaguesLoop_cons_trace p conf l ls s
    rw [ht]
    apply reportsFromLoopTabs_concat _ _ _ (stashLeague_reports p conf l s current)
    intro c
    rcases htail with ht0 | ⟨_, ht1⟩
    · rw [ht0]
      simp [reportsFromLoopTabs]
    · rw [ht1]
      exact ih _ c

/-- C9 (as amended): wherever the scan fetched the first page of a league that counts at
least one tab, lists tab 0 and holds a matching top-level item in tab 0, what follows is the
progress line, the pause, the header naming tab 0, and then the league's loop over the tabs,
which prints no further header and whose report lines all belong to a tab fetched inside the
loop (index 1 or more), up to the end of the scan or the first page of the next league. For
the first configured league that position is the start of the trace. In every scan, each
report line belongs to the tab fetched last, whose index is 1 or more. -/
theorem tab0_header_without_reports {σ : Type} (p : Poe σ) (conf : Config) (s : σ) :
    (∀ pre post league firstTab tab0,
      (poeFindStashMTX p conf s).trace =
        pre ++ Event.GetStash league 0 1 (.ok firstTab) :: post →
      1 ≤ firstTab.NumTabs → firstTab.Tabs[0]? = some tab0 →
      (∃ item ∈ firstTab.Items, 0 < item.CosmeticMods.length) →
      ∃ loopRest after,
        post = [Event.printStashCount league tab0.N 0 firstTab.NumTabs,
          Event.Sleep (wrapInt (1000 * 1000000 * conf.DelayTime)), Event.printTab league tab0.N] ++ loopRest ++ after ∧
        (∀ e ∈ loopRest, e.isTabHeader = false ∧ e.isFirstPage = false) ∧
        reportsFromLoopTabs (some (0, firstTab.Items)) loopRest ∧
        (after = [] ∨ ∃ next answer rest, after = Event.GetStash next 0 1 answer :: rest)) ∧
    (∀ league rest firstTab s1 tab0,
      conf.StashLeagues = league :: rest →
      p.GetStash s league 0 1 = (.ok firstTab, s1) →
      1 ≤ firstTab.NumTabs → firstTab.Tabs[0]? = some tab0 →
      (∃ item ∈ firstTab.Items, 0 < item.CosmeticMods.length) →
      ∃ tail, (poeFindStashMTX p conf s).trace =
        [Event.GetStash league 0 1 (.ok firstTab),
          Event.printStashCount league tab0.N 0 firstTab.NumTabs,
          Event.Sleep (wrapInt (1000 * 1000000 * conf.DelayTime)), Event.printTab league tab0.N] ++ tail) ∧
    reportsFromLoopTabs none (poeFindStashMTX p conf s).trace := by
  refine ⟨?_, ?_, leaguesLoop_reports p conf conf.StashLeagues s none⟩
  · intro pre post league firstTab tab0 h hn htab hitem
    exact leaguesLoop_at_first_page p conf conf.StashLeagues s pre post league firstTab tab0
      h hn htab hitem
  · intro league rest firstTab s1 tab0 hl hfetch hn htab hitem
    obtain ⟨loopRest, hrest, _, _⟩ :=
      stashLeague_tab0_header p conf league s s1 firstTab tab0 hfetch hn htab hitem
    obtain ⟨tail, ht, _⟩ := leaguesLoop_cons_trace p conf league rest s
    refine ⟨loopRest ++ tail, ?_⟩
    simp only [poeFindStashMTX, hl, ht, hrest, List.append_assoc, delay]

/-- The C9 statement for an account whose tab 0 holds a skinned item, scanned for the
leagues "L" and "M". -/
theorem tab0_header_without_reports_witness :
    firstTabAccount.GetStash () (lit "L") 0 1 =
        (.ok ⟨2, [⟨lit "T0"⟩, ⟨lit "T1"⟩], [skinned "Z"]⟩, ()) ∧
      ∃ tail, (poeFindStashMTX firstTabAccount (sampleConfig [lit "L", lit "M"]) ()).trace =
        [.GetStash (lit "L") 0 1 (.ok ⟨2, [⟨lit "T0"⟩, ⟨lit "T1"⟩], [skinned "Z"]⟩),
          .printStashCount (lit "L") (lit "T0") 0 2, .Sleep 1000000000,
          .printTab (lit "L") (lit "T0")] ++ tail :=
  ⟨rfl, (tab0_header_without_reports firstTabAccount (sampleConfig [lit "L", lit "M"]) ()).2.1
    (lit "L") [lit "M"] ⟨2, [⟨lit "T0"⟩, ⟨lit "T1"⟩], [skinned "Z"]⟩ () ⟨lit "T0"⟩ rfl rfl
    (by decide) rfl ⟨skinned "Z", List.mem_singleton.mpr rfl, by decide⟩⟩

/-- C9 (counterexample): the first fetch succeeds, counts two tabs and holds a matching item
in tab 0, but lists no tab: the scan stops at the progress line of tab 0 with an index out of
range, and no header is printed. -/
theorem tab0_header_unlisted_tab :
    unlistedAccount.GetStash () (lit "L") 0 1 = (.ok ⟨2, [], [skinned "Z"]⟩, ()) ∧
      (poeFindStashMTX unlistedAccount (sampleConfig [lit "L"]) ()).trace =
        [.GetStash (lit "L") 0 1 (.ok ⟨2, [], [skinned "Z"]⟩)] ∧
      (poeFindStashMTX unlistedAccount (sampleConfig [lit "L"]) ()).outcome = .panicked ∧
      ((poeFindStashMTX unlistedAccount (sampleConfig [lit "L"]) ()).trace.filter
        Event.isTabHeader).length = 0 := by
  refine ⟨rfl, rfl, rfl, rfl⟩

/-! ## Failure of a stash fetch -/

theorem Settled.prepend {trace : List Event} {outcome : Outcome} (front : List Event)
    (hfront : ∀ e ∈ front, e.isFailure = false) (h : Settled trace outcome) :
    Settled (front ++ trace) outcome := by
  rcases h with ⟨ho, pre, league, index, tabs, err, ht, hpre⟩ | ⟨ho, hclean⟩
  · refine Or.inl ⟨ho, front ++ pre, league, index, tabs, err, ?_, ?_⟩
    · rw [ht, List.append_assoc]
    · intro e he
      rcases List.mem_append.mp he with h | h
      · exact hfront e h
      · exact hpre e h
  · refine Or.inr ⟨ho, ?_⟩
    intro e he
    rcases List.mem_append.mp he with h | h
    · exact hfront e h
    · exact hclean e h

theorem stashItemsLoop_isFailure {league stash : GoString} {items : List Item} {b : Bool}
    {e : Event} (h : e ∈ (stashItemsLoop league stash items b).2) : e.isFailure = false := by
  rcases stashItemsLoop_mem h with rfl | ⟨_, _, rfl⟩ | ⟨_, _, _, _, rfl⟩ <;> rfl

theorem tabsLoop_settled {σ : Type} (p : Poe σ) (conf : Config) (league : GoString)
    (firstTab : Stash) (remaining : Nat) (i : Int) (b : Bool) (s : σ) :
    Settled (tabsLoop p conf league firstTab remaining i b s).trace
      (tabsLoop p conf league firstTab remaining i b s).outcome := by
  induction remaining generalizing i b s with
  | zero => exact Or.inr ⟨by simp [tabsLoop], by simp [tabsLoop]⟩
  | succ n ih =>
    simp only [tabsLoop]
    rcases hf : p.GetStash s league i 0 with ⟨r, s1⟩
    cases r with
    | error err =>
      exact Or.inl ⟨rfl, [], league, i, 0, err, rfl, by simp⟩
    | ok currentTab =>
      cases ht : firstTab.Tabs[i.toNat]? with
      | none =>
        refine Or.inr ⟨by simp, ?_⟩
        intro e he
        simp only [List.mem_singleton] at he
        subst he
        rfl
      | some tab =>
        simp only
        have h := ih (i + 1) (stashItemsLoop league tab.N currentTab.Items b).1 s1
        have h2 := Settled.prepend ([Event.GetStash league i 0 (.ok currentTab),
          Event.printStashCount league tab.N i firstTab.NumTabs] ++
          (stashItemsLoop league tab.N currentTab.Items b).2 ++ [Event.Sleep (delay conf)])
          (by
            intro e he
            simp only [List.cons_append, List.nil_append, List.mem_cons, List.mem_append,
              List.mem_singleton, List.not_mem_nil, or_false] at he
            rcases he with rfl | rfl | he | rfl
            · rfl
            · rfl
            · exact stashItemsLoop_isFailure he
            · rfl) h
        simpa [List.append_assoc] using h2

theorem stashLeague_settled {σ : Type} (p : Poe σ) (conf : Config) (league : GoString) (s : σ) :
    Settled (stashLeague p conf league s).trace (stashLeague p conf league s).outcome := by
  simp only [stashLeague]
  rcases hf : p.GetStash s league 0 1 with ⟨r, s1⟩
  cases r with
  | error err =>
    exact Or.inl ⟨rfl, [], league, 0, 1, err, rfl, by simp⟩
  | ok firstTab =>
    simp only
    by_cases hz : firstTab.NumTabs = 0
    · rw [if_pos hz]
      refine Or.inr ⟨by simp, ?_⟩
      intro e he
      simp only [List.mem_singleton] at he
      subst he
      rfl
    · rw [if_neg hz]
      cases ht : firstTab.Tabs[0]? with
      | none =>
        refine Or.inr ⟨by simp, ?_⟩
        intro e he
        simp only [List.mem_singleton] at he
        subst he
        rfl
      | some tab =>
        simp only
        apply Settled.prepend _ _ (tabsLoop_settled _ _ _ _ _ _ _ _)
        intro e he
        simp only [List.cons_append, List.nil_append, List.mem_cons, List.mem_append] at he
        rcases he with rfl | rfl | rfl | he
        · rfl
        · rfl
        · rfl
        · rw [firstTabLoop_mem he]
          rfl

theorem leaguesLoop_settled {σ : Type} (p : Poe σ) (conf : Config) (leagues : List GoString)
    (s : σ) :
    Settled (leaguesLoop p conf leagues s).trace (leaguesLoop p conf leagues s).outcome := by
  induction leagues generalizing s with
  | nil => exact Or.inr ⟨by simp [leaguesLoop], by simp [leaguesLoop]⟩
  | cons league rest ih =>
    have h := stashLeague_settled p conf league s
    simp only [leaguesLoop]
    cases ho : (stashLeague p conf league s).outcome with
    | completed =>
      simp only
      rw [ho] at h
      rcases h with ⟨hc, _⟩ | ⟨_, hclean⟩
      · cases hc
      · exact Settled.prepend _ hclean (ih _)
    | returned =>
      simp only
      rw [ho] at h
      rw [ho]
      exact h
    | panicked =>
      simp only
      rw [ho] at h
      rw [ho]
      exact h

/-- C4: a failed stash fetch ends the scan: the error is shown, that display is the last
event of the run (no later fetch, header, report line or pause), and nothing before the
failed fetch had failed or shown an error. -/
theorem stash_fetch_failure_aborts {σ : Type} (p : Poe σ) (conf : Config) (s : σ)
    (pre post : List Event) (league : GoString) (index tabs : Int) (err : Error)
    (h : (poeFindStashMTX p conf s).trace =
      pre ++ Event.GetStash league index tabs (.error err) :: post) :
    post = [Event.displayStartupError err] ∧
      (∀ e ∈ pre, e.isFailure = false) ∧
      (poeFindStashMTX p conf s).outcome = .returned := by
  have hs := leaguesLoop_settled p conf conf.StashLeagues s
  change Settled (poeFindStashMTX p conf s).trace (poeFindStashMTX p conf s).outcome at hs
  rw [h] at hs
  rcases hs with ⟨ho, pre2, l2, i2, f2, e2, ht, hpre2⟩ | ⟨_, hclean⟩
  · rw [List.append_eq_append_iff] at ht
    rcases ht with ⟨as, h1, h2⟩ | ⟨bs, h1, h2⟩
    · -- pre2 = pre ++ as
      cases as with
      | nil =>
        simp only [List.append_nil, List.nil_append, List.cons.injEq, Event.GetStash.injEq,
          Except.error.injEq] at h1 h2
        obtain ⟨⟨_, _, _, he⟩, hp⟩ := h2
        subst h1 he
        exact ⟨hp, hpre2, ho⟩
      | cons a as =>
        simp only [List.cons_append, List.cons.injEq] at h2
        have hmem : Event.GetStash league index tabs (.error err) ∈ pre2 := by
          rw [h1, ← h2.1]
          simp
        have := hpre2 _ hmem
        simp [Event.isFailure] at this
    · -- pre = pre2 ++ bs
      cases bs with
      | nil =>
        simp only [List.append_nil, List.nil_append, List.cons.injEq, Event.GetStash.injEq,
          Except.error.injEq] at h1 h2
        obtain ⟨⟨_, _, _, he⟩, hp⟩ := h2
        subst h1 he
        exact ⟨hp.symm, hpre2, ho⟩
      | cons b bs =>
        exfalso
        simp only [List.cons_append, List.cons.injEq] at h2
        obtain ⟨_, h3⟩ := h2
        cases bs with
        | nil => simp at h3
        | cons c cs =>
          simp only [List.cons_append, List.cons.injEq] at h3
          have := congrArg List.length h3.2
          simp only [List.length_nil, List.length_append, List.length_cons] at this
          omega
  · have := hclean (Event.GetStash league index tabs (.error err)) (by simp)
    simp [Event.isFailure] at this

theorem stash_fetch_failure_aborts_witness :
    (poeFindStashMTX failingAccount (sampleConfig [lit "Standard", lit "Hardcore"]) ()).trace =
        [.GetStash (lit "Standard") 0 1 (.ok ⟨3, sampleTabs, []⟩),
          .printStashCount (lit "Standard") (lit "T0") 0 3, .Sleep 1000000000] ++
        Event.GetStash (lit "Standard") 1 0 (.error (lit "timeout")) ::
          [.displayStartupError (lit "timeout")] ∧
      (poeFindStashMTX failingAccount (sampleConfig [lit "Standard", lit "Hardcore"]) ()).outcome
        = .returned :=
  ⟨rfl, (stash_fetch_failure_aborts failingAccount
    (sampleConfig [lit "Standard", lit "Hardcore"]) ()
    [.GetStash (lit "Standard") 0 1 (.ok ⟨3, sampleTabs, []⟩),
      .printStashCount (lit "Standard") (lit "T0") 0 3, .Sleep 1000000000]
    [.displayStartupError (lit "timeout")] (lit "Standard") 1 0 (lit "timeout") rfl).2.2⟩

/-! ## Order of the stash fetches -/

theorem steps_append (a b : List Event) : steps (a ++ b) = steps a ++ steps b := by
  simp [steps]

theorem firstPages_append (a b : List Event) :
    firstPages (a ++ b) = firstPages a ++ firstPages b := by
  simp [firstPages]

theorem steps_stashReportLines (items : List Item) : steps (stashReportLines items) = [] := by
  simp only [steps, List.filterMap_eq_nil_iff]
  intro e he
  rcases stashReportLines_mem he with ⟨_, _, rfl⟩ | ⟨_, _, _, _, rfl⟩ <;> rfl

theorem firstPages_stashReportLines (items : List Item) :
    firstPages (stashReportLines items) = [] := by
  simp only [firstPages, List.filterMap_eq_nil_iff]
  intro e he
  rcases stashReportLines_mem he with ⟨_, _, rfl⟩ | ⟨_, _, _, _, rfl⟩ <;> rfl

theorem tabName_of_listed {firstTab : Stash} {i : Int} {tab : Tab}
    (h : firstTab.Tabs[i.toNat]? = some tab) : tabName firstTab i = tab.N := by
  simp [tabName, h]

theorem tabsLoop_expected {σ : Type} (p : Poe σ) (conf : Config) (league : GoString)
    (firstTab : Stash) (remaining : Nat) (i : Int) (b : Bool) (s : σ) (hi : 0 ≤ i)
    (hlen : i + remaining ≤ firstTab.Tabs.length)
    (hclean : ∀ e ∈ (tabsLoop p conf league firstTab remaining i b s).trace,
      e.isFailure = false) :
    ∃ tabs, tabs.length = remaining ∧
      (tabsLoop p conf league firstTab remaining i b s).trace =
        expectedTabs conf league firstTab i b tabs ∧
      (tabsLoop p conf league firstTab remaining i b s).outcome = .completed := by
  induction remaining generalizing i b s with
  | zero => exact ⟨[], rfl, rfl, rfl⟩
  | succ n ih =>
    rcases hf : p.GetStash s league i 0 with ⟨r, s1⟩
    cases r with
    | error err =>
      exfalso
      have := hclean (Event.GetStash league i 0 (.error err)) (by simp [tabsLoop, hf])
      simp [Event.isFailure] at this
    | ok tab =>
      have hlt : i.toNat < firstTab.Tabs.length := by omega
      have hget : firstTab.Tabs[i.toNat]? = some firstTab.Tabs[i.toNat] :=
        List.getElem?_eq_getElem hlt
      have htrace : (tabsLoop p conf league firstTab (n + 1) i b s).trace =
          [Event.GetStash league i 0 (.ok tab),
            Event.printStashCount league firstTab.Tabs[i.toNat].N i firstTab.NumTabs] ++
          (stashItemsLoop league firstTab.Tabs[i.toNat].N tab.Items b).2 ++
          Event.Sleep (delay conf) ::
            (tabsLoop p conf league firstTab n (i + 1)
              (stashItemsLoop league firstTab.Tabs[i.toNat].N tab.Items b).1 s1).trace := by
        simp only [tabsLoop, hf, hget]
      have hout : (tabsLoop p conf league firstTab (n + 1) i b s).outcome =
          (tabsLoop p conf league firstTab n (i + 1)
            (stashItemsLoop league firstTab.Tabs[i.toNat].N tab.Items b).1 s1).outcome := by
        simp only [tabsLoop, hf, hget]
      obtain ⟨tabs, hl, ht, ho⟩ := ih (i + 1)
        (stashItemsLoop league firstTab.Tabs[i.toNat].N tab.Items b).1 s1 (by omega)
        (by push_cast at hlen ⊢; omega)
        (by
          intro e he
          apply hclean
          rw [htrace]
          simp [he])
      refine ⟨tab :: tabs, by simp [hl], ?_, by rw [hout, ho]⟩
      rw [htrace, ht, stashItemsLoop_eq]
      simp only [expectedTabs, tabName_of_listed hget, delay, List.append_assoc]

theorem stashLeague_expected {σ : Type} (p : Poe σ) (conf : Config) (league : GoString)
    (s : σ)
    (hclean : ∀ e ∈ (stashLeague p conf league s).trace, e.isFailure = false)
    (hwf : ∀ firstTab, (p.GetStash s league 0 1).1 = .ok firstTab →
      0 ≤ firstTab.NumTabs ∧ firstTab.NumTabs ≤ firstTab.Tabs.length) :
    ∃ firstTab tabs, tabs.length = (firstTab.NumTabs - 1).toNat ∧
      (stashLeague p conf league s).trace = expectedLeague conf league firstTab tabs ∧
      (stashLeague p conf league s).outcome = .completed := by
  rcases hf : p.GetStash s league 0 1 with ⟨r, s1⟩
  cases r with
  | error err =>
    exfalso
    have := hclean (Event.GetStash league 0 1 (.error err)) (by simp [stashLeague, hf])
    simp [Event.isFailure] at this
  | ok firstTab =>
    obtain ⟨h0, hle⟩ := hwf firstTab (by rw [hf])
    by_cases hz : firstTab.NumTabs = 0
    · refine ⟨firstTab, [], by simp [hz], ?_, ?_⟩
      · simp [stashLeague, hf, hz, expectedLeague]
      · simp [stashLeague, hf, hz]
    · have hlt : 0 < firstTab.Tabs.length := by omega
      have hget : firstTab.Tabs[0]? = some firstTab.Tabs[0] := List.getElem?_eq_getElem hlt
      have hget' : firstTab.Tabs[(0 : Int).toNat]? = some firstTab.Tabs[0] := hget
      have htrace : (stashLeague p conf league s).trace =
          [Event.GetStash league 0 1 (.ok firstTab),
            Event.printStashCount league firstTab.Tabs[0].N 0 firstTab.NumTabs,
            Event.Sleep (delay conf)] ++
          (firstTabLoop league firstTab.Tabs[0].N firstTab.Items false).2 ++
          (tabsLoop p conf league firstTab (firstTab.NumTabs - 1).toNat 1
            (firstTabLoop league firstTab.Tabs[0].N firstTab.Items false).1 s1).trace := by
        simp only [stashLeague, hf, hz, if_false, hget]
      have hout : (stashLeague p conf league s).outcome =
          (tabsLoop p conf league firstTab (firstTab.NumTabs - 1).toNat 1
            (firstTabLoop league firstTab.Tabs[0].N firstTab.Items false).1 s1).outcome := by
        simp only [stashLeague, hf, hz, if_false, hget]
      obtain ⟨tabs, hl, ht, ho⟩ := tabsLoop_expected p conf league firstTab
        (firstTab.NumTabs - 1).toNat 1
        (firstTabLoop league firstTab.Tabs[0].N firstTab.Items false).1 s1 (by omega)
        (by omega)
        (by
          intro e he
          apply hclean
          rw [htrace]
          exact List.mem_append_right _ he)
      refine ⟨firstTab, tabs, hl, ?_, by rw [hout, ho]⟩
      rw [htrace, ht, firstTabLoop_eq]
      simp only [expectedLeague, hz, if_false, tabName_of_listed hget', delay,
        Bool.false_or, Bool.not_false, Bool.true_and, List.append_assoc]

theorem leaguesLoop_expected {σ : Type} (p : Poe σ) (conf : Config)
    (leagues : List GoString) (s : σ)
    (hclean : ∀ e ∈ (leaguesLoop p conf leagues s).trace, e.isFailure = false)
    (hwf : ∀ league index firstTab,
      Event.GetStash league index 1 (.ok firstTab) ∈ (leaguesLoop p conf leagues s).trace →
      0 ≤ firstTab.NumTabs ∧ firstTab.NumTabs ≤ firstTab.Tabs.length) :
    ∃ answers : List (Stash × List Stash), answers.length = leagues.length ∧
      (∀ a ∈ answers, a.2.length = (a.1.NumTabs - 1).toNat) ∧
      (leaguesLoop p conf leagues s).trace =
        (List.zip leagues answers).flatMap (fun la =>
          expectedLeague conf la.1 la.2.1 la.2.2) ∧
      (leaguesLoop p conf leagues s).outcome = .completed := by
  induction leagues generalizing s with
  | nil => exact ⟨[], rfl, by simp, rfl, rfl⟩
  | cons l ls ih =>
    obtain ⟨tail, ht, _⟩ := leaguesLoop_cons_trace p conf l ls s
    obtain ⟨body, hb, _⟩ := stashLeague_shape p conf l s
    have hsub : ∀ e ∈ (stashLeague p conf l s).trace,
        e ∈ (leaguesLoop p conf (l :: ls) s).trace := by
      intro e he
      rw [ht]
      exact List.mem_append_left _ he
    obtain ⟨firstTab, tabs, hl, hexp, ho⟩ := stashLeague_expected p conf l s
      (fun e he => hclean e (hsub e he))
      (by
        intro firstTab hft
        apply hwf l 0 firstTab
        apply hsub
        rw [hb, hft]
        exact List.mem_cons_self _ _)
    have htrace : (leaguesLoop p conf (l :: ls) s).trace =
        (stashLeague p conf l s).trace ++
          (leaguesLoop p conf ls (stashLeague p conf l s).state).trace := by
      simp only [leaguesLoop, ho]
    have hout : (leaguesLoop p conf (l :: ls) s).outcome =
        (leaguesLoop p conf ls (stashLeague p conf l s).state).outcome := by
      simp only [leaguesLoop, ho]
    obtain ⟨answers, hal, hat, hatr, hao⟩ := ih (stashLeague p conf l s).state
      (by
        intro e he
        apply hclean
        rw [htrace]
        exact List.mem_append_right _ he)
      (by
        intro league index ft he
        apply hwf league index ft
        rw [htrace]
        exact List.mem_append_right _ he)
    refine ⟨(firstTab, tabs) :: answers, by simp [hal], ?_, ?_, by rw [hout, hao]⟩
    · intro a ha
      rcases List.mem_cons.mp ha with rfl | ha
      · exact hl
      · exact hat a ha
    · rw [htrace, hexp, hatr]
      simp

theorem steps_expectedTabs (conf : Config) (league : GoString) (firstTab : Stash) (i : Int)
    (b : Bool) (tabs : List Stash) :
    steps (expectedTabs conf league firstTab i b tabs) =
      (List.range tabs.length).flatMap (fun k =>
        [Step.fetch league (i + (k : Int)) 0,
          Step.pause (wrapInt (1000 * 1000000 * conf.DelayTime))]) := by
  induction tabs generalizing i b with
  | nil => simp [expectedTabs, steps]
  | cons tab rest ih =>
    have hsleep : ∀ t : List Event,
        steps (Event.Sleep (wrapInt (1000 * 1000000 * conf.DelayTime)) :: t) =
          Step.pause (wrapInt (1000 * 1000000 * conf.DelayTime)) :: steps t := by
      intro t
      simp [steps, Event.step]
    have hhead : steps ([Event.GetStash league i 0 (.ok tab),
        Event.printStashCount league (tabName firstTab i) i firstTab.NumTabs] ++
        (if !b && tab.Items.any matchesItem then
          [Event.printTab league (tabName firstTab i)] else [])) =
        [Step.fetch league i 0] := by
      split <;> simp [steps, Event.step]
    simp only [expectedTabs]
    rw [steps_append, steps_append, hhead, steps_stashReportLines, hsleep, ih,
      List.length_cons, List.range_succ_eq_map, List.flatMap_cons, List.flatMap_map]
    simp only [List.append_nil, List.cons_append, List.nil_append, Nat.cast_zero, add_zero,
      List.cons.injEq, true_and]
    congr 1
    funext k
    simp only [Function.comp, Nat.cast_succ, List.cons.injEq, Step.fetch.injEq, true_and,
      and_true]
    omega

theorem steps_expectedLeague (conf : Config) (league : GoString) (firstTab : Stash)
    (tabs : List Stash) (hl : tabs.length = (firstTab.NumTabs - 1).toNat) :
    steps (expectedLeague conf league firstTab tabs) =
      leagueSteps conf league firstTab.NumTabs := by
  by_cases hz : firstTab.NumTabs = 0
  · simp [expectedLeague, leagueSteps, hz, steps, Event.step]
  · have hhead : steps ([Event.GetStash league 0 1 (.ok firstTab),
        Event.printStashCount league (tabName firstTab 0) 0 firstTab.NumTabs,
        Event.Sleep (wrapInt (1000 * 1000000 * conf.DelayTime))] ++
        (if firstTab.Items.any hasMods then [Event.printTab league (tabName firstTab 0)]
          else [])) =
        [Step.fetch league 0 1, Step.pause (wrapInt (1000 * 1000000 * conf.DelayTime))] := by
      split <;> simp [steps, Event.step]
    simp only [expectedLeague, hz, if_false, leagueSteps]
    rw [steps_append, hhead, steps_expectedTabs, hl]
    rfl

theorem firstPages_expectedTabs (conf : Config) (league : GoString) (firstTab : Stash)
    (i : Int) (b : Bool) (tabs : List Stash) :
    firstPages (expectedTabs conf league firstTab i b tabs) = [] := by
  induction tabs generalizing i b with
  | nil => simp [expectedTabs, firstPages]
  | cons tab rest ih =>
    have hhead : firstPages ([Event.GetStash league i 0 (.ok tab),
        Event.printStashCount league (tabName firstTab i) i firstTab.NumTabs] ++
        (if !b && tab.Items.any matchesItem then
          [Event.printTab league (tabName firstTab i)] else [])) = [] := by
      split <;> simp [firstPages]
    have hsleep : ∀ t : List Event,
        firstPages (Event.Sleep (wrapInt (1000 * 1000000 * conf.DelayTime)) :: t) =
          firstPages t := by
      intro t
      simp [firstPages]
    simp only [expectedTabs]
    rw [firstPages_append, firstPages_append, hhead, firstPages_stashReportLines, hsleep, ih]
    rfl

theorem firstPages_expectedLeague (conf : Config) (league : GoString) (firstTab : Stash)
    (tabs : List Stash) : firstPages (expectedLeague conf league firstTab tabs) = [league] := by
  by_cases hz : firstTab.NumTabs = 0
  · simp [expectedLeague, hz, firstPages]
  · have hhead : firstPages ([Event.GetStash league 0 1 (.ok firstTab),
        Event.printStashCount league (tabName firstTab 0) 0 firstTab.NumTabs,
        Event.Sleep (wrapInt (1000 * 1000000 * conf.DelayTime))] ++
        (if firstTab.Items.any hasMods then [Event.printTab league (tabName firstTab 0)]
          else [])) = [league] := by
      split <;> simp [firstPages]
    simp only [expectedLeague, hz, if_false]
    rw [firstPages_append, hhead, firstPages_expectedTabs]
    rfl

theorem wrapInt_of_in_range (x : Int) (hlo : -(2 ^ 63) ≤ x) (hhi : x < 2 ^ 63) :
    wrapInt x = x := by
  unfold wrapInt
  have h : (x + 2 ^ 63) % 2 ^ 64 = x + 2 ^ 63 := Int.emod_eq_of_lt (by omega) (by omega)
  rw [h]
  omega

theorem steps_flatMap_expected (conf : Config) (leagues : List GoString)
    (answers : List (Stash × List Stash))
    (h : ∀ a ∈ answers, a.2.length = (a.1.NumTabs - 1).toNat) :
    steps ((List.zip leagues answers).flatMap (fun la =>
        expectedLeague conf la.1 la.2.1 la.2.2)) =
      (List.zip leagues answers).flatMap (fun la => leagueSteps conf la.1 la.2.1.NumTabs) := by
  induction leagues generalizing answers with
  | nil => simp [steps]
  | cons l ls ih =>
    cases answers with
    | nil => simp [steps]
    | cons a as =>
      simp only [List.zip_cons_cons, List.flatMap_cons]
      rw [steps_append, steps_expectedLeague conf l a.1 a.2 (h a (List.mem_cons_self _ _)),
        ih as (fun x hx => h x (List.mem_cons_of_mem _ hx))]

theorem firstPages_flatMap_expected (conf : Config) (leagues : List GoString)
    (answers : List (Stash × List Stash)) (h : answers.length = leagues.length) :
    firstPages ((List.zip leagues answers).flatMap (fun la =>
        expectedLeague conf la.1 la.2.1 la.2.2)) = leagues := by
  induction leagues generalizing answers with
  | nil => simp [firstPages]
  | cons l ls ih =>
    cases answers with
    | nil => simp at h
    | cons a as =>
      simp only [List.zip_cons_cons, List.flatMap_cons]
      rw [firstPages_append, firstPages_expectedLeague, ih as (by simpa using h)]
      rfl

/-- C5 (as amended): in a scan whose fetches all succeed and whose first fetches list every
tab they count, the trace is, league by league in configuration order, the trace
`expectedLeague` of that league's answers: tab 0 with the flag set, its progress line and a
pause, then tabs 1 .. n-1 in ascending order with the flag clear, each with its progress
line, header and report lines and then one pause of `1000ms * DelayTime` (in nanoseconds,
as a 64-bit product). In a 3-tab league where only tab 2 holds one matching top-level item
that is the three fetches in order and one header, naming tab 2, directly followed by the
item's report line. -/
theorem stash_fetch_order {σ : Type} (p : Poe σ) (conf : Config) (s : σ)
    (hok : ∀ e ∈ (poeFindStashMTX p conf s).trace, e.isFailure = false)
    (hwf : ∀ league index firstTab,
      Event.GetStash league index 1 (.ok firstTab) ∈ (poeFindStashMTX p conf s).trace →
      0 ≤ firstTab.NumTabs ∧ firstTab.NumTabs ≤ firstTab.Tabs.length) :
    (∃ answers : List (Stash × List Stash),
      answers.length = conf.StashLeagues.length ∧
      (∀ a ∈ answers, a.2.length = (a.1.NumTabs - 1).toNat) ∧
      (poeFindStashMTX p conf s).trace =
        (List.zip conf.StashLeagues answers).flatMap (fun la =>
          expectedLeague conf la.1 la.2.1 la.2.2) ∧
      steps (poeFindStashMTX p conf s).trace =
        (List.zip conf.StashLeagues answers).flatMap (fun la =>
          leagueSteps conf la.1 la.2.1.NumTabs)) ∧
    (poeFindStashMTX p conf s).outcome = .completed ∧
    firstPages (poeFindStashMTX p conf s).trace = conf.StashLeagues ∧
    (∀ league firstTab tab1 tab2 t0 t1 t2 before item after,
      firstTab.NumTabs = 3 → firstTab.Tabs = [t0, t1, t2] →
      firstTab.Items.any hasMods = false → tab1.Items.any matchesItem = false →
      tab2.Items = before ++ item :: after →
      before.any matchesItem = false → after.any matchesItem = false →
      hasMods item = true → item.SocketedItems.any hasMods = false →
      expectedLeague conf league firstTab [tab1, tab2] =
        [.GetStash league 0 1 (.ok firstTab), .printStashCount league t0.N 0 3,
          .Sleep (wrapInt (1000 * 1000000 * conf.DelayTime)),
          .GetStash league 1 0 (.ok tab1), .printStashCount league t1.N 1 3,
          .Sleep (wrapInt (1000 * 1000000 * conf.DelayTime)),
          .GetStash league 2 0 (.ok tab2), .printStashCount league t2.N 2 3,
          .printTab league t2.N, .printItem item,
          .Sleep (wrapInt (1000 * 1000000 * conf.DelayTime))]) ∧
    (-(2 ^ 63) ≤ 1000 * 1000000 * conf.DelayTime → 1000 * 1000000 * conf.DelayTime < 2 ^ 63 →
      wrapInt (1000 * 1000000 * conf.DelayTime) = 1000 * 1000000 * conf.DelayTime) := by
  obtain ⟨answers, hlen, hans, htrace, hout⟩ :=
    leaguesLoop_expected p conf conf.StashLeagues s hok hwf
  have htrace' : (poeFindStashMTX p conf s).trace =
      (List.zip conf.StashLeagues answers).flatMap (fun la =>
        expectedLeague conf la.1 la.2.1 la.2.2) := htrace
  refine ⟨⟨answers, hlen, hans, htrace', ?_⟩, hout, ?_, ?_, wrapInt_of_in_range _⟩
  · rw [htrace']
    exact steps_flatMap_expected conf conf.StashLeagues answers hans
  · rw [htrace']
    exact firstPages_flatMap_expected conf conf.StashLeagues answers hlen
  · intro league firstTab tab1 tab2 t0 t1 t2 before item after hn htabs hi0 hi1 hi2 hb ha
      hitem hsock
    have hne : firstTab.NumTabs ≠ 0 := by omega
    have hany : tab2.Items.any matchesItem = true := by
      rw [hi2]
      simp [matchesItem, hitem]
    have hlines : stashReportLines tab2.Items = [Event.printItem item] := by
      have happ : ∀ a b : List Item,
          stashReportLines (a ++ b) = stashReportLines a ++ stashReportLines b := by
        intro a b
        simp [stashReportLines]
      rw [hi2, happ, stashReportLines_cons, stashReportLines_of_no_match hb,
        stashReportLines_of_no_match ha, filter_hasMods_eq_nil hsock]
      simp [hitem]
    have hn0 : tabName firstTab 0 = t0.N := by simp [tabName, htabs]
    have hn1 : tabName firstTab 1 = t1.N := by simp [tabName, htabs]
    have hn2 : tabName firstTab 2 = t2.N := by simp [tabName, htabs]
    simp [expectedLeague, expectedTabs, hne, hi0, hi1, stashReportLines_of_no_match hi1,
      hany, hlines, hn, hn0, hn1, hn2]

/-- The C5 statement for an account with three tabs per league, only tab 2 holding a matching
item, scanned for the leagues "L" and "M" with a pause factor of 3. -/
theorem stash_fetch_order_witness :
    (poeFindStashMTX lastTabAccount (slowConfig [lit "L", lit "M"]) ()).trace =
      [.GetStash (lit "L") 0 1 (.ok ⟨3, sampleTabs, [plain "P"]⟩),
        .printStashCount (lit "L") (lit "T0") 0 3, .Sleep 3000000000,
        .GetStash (lit "L") 1 0 (.ok ⟨0, [], [plain "Q"]⟩),
        .printStashCount (lit "L") (lit "T1") 1 3, .Sleep 3000000000,
        .GetStash (lit "L") 2 0 (.ok ⟨0, [], [skinned "B"]⟩),
        .printStashCount (lit "L") (lit "T2") 2 3,
        .printTab (lit "L") (lit "T2"), .printItem (skinned "B"), .Sleep 3000000000] ++
      lastTabTrace (lit "M") ∧
    (poeFindStashMTX lastTabAccount (slowConfig [lit "L", lit "M"]) ()).outcome = .completed ∧
    firstPages (poeFindStashMTX lastTabAccount (slowConfig [lit "L", lit "M"]) ()).trace =
      [lit "L", lit "M"] ∧
    expectedLeague (slowConfig [lit "L", lit "M"]) (lit "M") ⟨3, sampleTabs, [plain "P"]⟩
        [⟨0, [], [plain "Q"]⟩, ⟨0, [], [skinned "B"]⟩] = lastTabTrace (lit "M") :=
  have htrace : (poeFindStashMTX lastTabAccount (slowConfig [lit "L", lit "M"]) ()).trace =
      lastTabTrace (lit "L") ++ lastTabTrace (lit "M") := rfl
  have h := stash_fetch_order lastTabAccount (slowConfig [lit "L", lit "M"]) ()
    (by
      rw [htrace]
      simp [lastTabTrace, Event.isFailure])
    (by
      rw [htrace]
      intro league index firstTab he
      simp only [lastTabTrace, List.cons_append, List.nil_append, List.mem_cons,
        Event.GetStash.injEq, Except.ok.injEq, List.mem_singleton, List.not_mem_nil,
        reduceCtorEq, false_or, or_false] at he
      rcases he with he | he | he | he | he | he
      · rw [he.2.2.2]; decide
      · exact absurd he.2.2.1 (by decide)
      · exact absurd he.2.2.1 (by decide)
      · rw [he.2.2.2]; decide
      · exact absurd he.2.2.1 (by decide)
      · exact absurd he.2.2.1 (by decide))
  ⟨rfl, h.2.1, h.2.2.1,
    (h.2.2.2.1 (lit "M") ⟨3, sampleTabs, [plain "P"]⟩ ⟨0, [], [plain "Q"]⟩
      ⟨0, [], [skinned "B"]⟩ ⟨lit "T0"⟩ ⟨lit "T1"⟩ ⟨lit "T2"⟩ [] (skinned "B") []
      rfl rfl rfl rfl rfl rfl rfl rfl rfl).trans rfl⟩

/-- C5 (counterexample): every fetch succeeds and the first fetch counts three tabs but lists
only tab 0: tab 1 is fetched, its progress line needs the name of a tab that is not listed,
and the scan stops there, so tab 2 is never fetched and no pause follows tab 1. -/
theorem stash_fetch_order_short_tab_list :
    (poeFindStashMTX shortListAccount (sampleConfig [lit "L"]) ()).trace =
      [.GetStash (lit "L") 0 1 (.ok ⟨3, [⟨lit "T0"⟩], []⟩),
        .printStashCount (lit "L") (lit "T0") 0 3, .Sleep 1000000000,
        .GetStash (lit "L") 1 0 (.ok ⟨0, [], [skinned "A"]⟩)] ∧
      (poeFindStashMTX shortListAccount (sampleConfig [lit "L"]) ()).outcome = .panicked ∧
      steps (poeFindStashMTX shortListAccount (sampleConfig [lit "L"]) ()).trace =
        [.fetch (lit "L") 0 1, .pause 1000000000, .fetch (lit "L") 1 0] := by
  refine ⟨rfl, rfl, rfl⟩
